import Mathlib

/-!
Verification of the dnsping latency scanner (src/dnsping/scanner.py) against
its natural-language specification.

The scanner's numeric core is embedded shallowly:

* Python floats that carry latencies are modelled by `PyFloat`: either a
  finite rational (`PyFloat.fin q`) or the `float("inf")` sentinel
  (`PyFloat.inf`).  The scanner never manufactures NaN or -inf for these
  fields, and wall-clock deltas are non-negative, so this covers the values
  the code computes with.
* Python sets of `TestMethod` are modelled as duplicate-free lists; the list
  order stands in for the (unspecified) iteration order of the Python set,
  which matters only for `next(iter(methods))` in `_scan_server_multiple`.
* `asyncio` coroutines are modelled by pure functions of the values the
  awaited operations produced (measured latencies, parsed ping output,
  subprocess return codes); an exception anywhere inside a probe method is
  modelled by the corresponding `Option` input being `none`, since
  `except Exception: return None` normalises both.
* The worker / live-reporter interleaving (for the counter-consistency
  claim) is modelled by an explicit transition system whose steps are the
  code slices between potential suspension points (`await` expressions);
  both critical sections in the code contain no `await`, so each one is a
  single atomic step.
-/

namespace DnsPing

/-- Model of the Python floats used for latencies: a finite rational or the
`float("inf")` sentinel. -/
inductive PyFloat where
  | fin : ℚ → PyFloat
  | inf : PyFloat
deriving DecidableEq

/-- The finite value carried by a `PyFloat` (junk value 0 for `inf`; only
used on paths where the code has already ruled `inf` out). -/
def PyFloat.toQ : PyFloat → ℚ
  | .fin q => q
  | .inf => 0

/-- Python's `x > 0` on our float model (`float("inf") > 0` is `True`). -/
def PyFloat.posB : PyFloat → Bool
  | .fin q => decide (0 < q)
  | .inf => true

/-- `TestMethod` enum from scanner.py: three probing techniques, each with a
display name and a priority. -/
inductive TestMethod where
  | DNS_QUERY
  | SOCKET_CONNECT
  | PING
deriving DecidableEq

/-- `display_name` attached to each `TestMethod` member. -/
def TestMethod.display_name : TestMethod → String
  | .DNS_QUERY => "DNS"
  | .SOCKET_CONNECT => "Socket"
  | .PING => "Ping"

/-- `priority` attached to each `TestMethod` member. -/
def TestMethod.priority : TestMethod → ℕ
  | .DNS_QUERY => 1
  | .SOCKET_CONNECT => 2
  | .PING => 3

/-- Python `set.add`: insert a method if not already present.  The list is
kept duplicate-free; appending at the tail fixes an iteration order. -/
def setAdd (l : List TestMethod) (m : TestMethod) : List TestMethod :=
  if m ∈ l then l else l ++ [m]

/-- Python `set.update`: add every element of `ms`. -/
def setUpdate (l ms : List TestMethod) : List TestMethod :=
  ms.foldl setAdd l

/-- `DNSResult` dataclass from scanner.py.  `last_updated` (a
`datetime.now()` timestamp) is modelled as an abstract tick supplied by the
caller. -/
structure DNSResult where
  server : String
  provider : String := "Unknown"
  latency : PyFloat := .inf
  avg_latency : PyFloat := .inf
  status : String := "Pending"
  last_updated : ℕ := 0
  ping_count : ℕ := 0
  successful_methods : List TestMethod := []
deriving DecidableEq

/-- `DNSResult.update_latency`: guarded by
`new_latency != float("inf") and new_latency > 0`; increments `ping_count`,
applies the capped weighted-average rule, records the method, bumps the
timestamp. -/
def DNSResult.update_latency (r : DNSResult) (new_latency : PyFloat)
    (method : TestMethod) (now : ℕ) : DNSResult :=
  if new_latency ≠ PyFloat.inf ∧ new_latency.posB = true then
    let ping_count' := r.ping_count + 1
    let avg' : PyFloat :=
      if r.avg_latency = PyFloat.inf then new_latency
      else
        let weight : ℚ := min (ping_count' : ℚ) 10
        PyFloat.fin ((r.avg_latency.toQ * (weight - 1) + new_latency.toQ) / weight)
    { r with
      ping_count := ping_count'
      avg_latency := avg'
      latency := new_latency
      successful_methods := setAdd r.successful_methods method
      last_updated := now }
  else r

/-!
### Probe methods

Each `_measure_*` coroutine is modelled as a function of the values the
awaited operations produced.  `errored = true` stands for any exception
taken by the surrounding `try`/`except Exception: return None`.
-/

/-- `_measure_dns_query_latency`: disabled (flag or missing dnspython) or
errored ⇒ `None`; otherwise the measured wall-clock delta `latencyMs` is
returned iff it is `< 5000` ("Sanity check"). -/
def measure_dns_query_latency (enable_dns_query HAS_DNSPYTHON errored : Bool)
    (latencyMs : ℚ) : Option ℚ :=
  if ¬(enable_dns_query && HAS_DNSPYTHON) = true then none
  else if errored then none
  else if latencyMs < 5000 then some latencyMs else none

/-- `_measure_socket_latency`: disabled or errored ⇒ `None`; otherwise the
measured wall-clock delta is returned iff it is `< 5000` ("Sanity check"). -/
def measure_socket_latency (enable_socket errored : Bool) (latencyMs : ℚ) :
    Option ℚ :=
  if ¬enable_socket = true then none
  else if errored then none
  else if latencyMs < 5000 then some latencyMs else none

/-- `_measure_ping_latency`: disabled or errored ⇒ `None`; nonzero
subprocess return code ⇒ `None`; otherwise the function returns whatever
float the platform-specific text parse extracted from the ping output
(`parsed`, `none` when no pattern matched).  Note: unlike the other two
methods, the parsed value is returned unchecked — there is no `< 5000`
sanity ceiling on this path in the source. -/
def measure_ping_latency (enable_ping errored : Bool) (returncode : ℤ)
    (parsed : Option ℚ) : Option ℚ :=
  if ¬enable_ping = true then none
  else if errored then none
  else if returncode ≠ 0 then none
  else parsed

/-!
### `_measure_server_latency` — one attempt combining all enabled methods

The `asyncio.gather` results are the three method results in the order the
tasks were appended (DNS query, socket, ping); a per-method exception is
normalised to `none` exactly like a `None` result, because
`isinstance(result, (int, float))` rejects both exceptions and `None`.
-/

/-- The `(task, method)` pairs assembled by `_measure_server_latency`,
keeping the code's append order and enabling conditions. -/
def gatherPairs (enable_dns_query HAS_DNSPYTHON enable_socket enable_ping : Bool)
    (dnsRes sockRes pingRes : Option PyFloat) :
    List (Option PyFloat × TestMethod) :=
  (if enable_dns_query && HAS_DNSPYTHON then [(dnsRes, TestMethod.DNS_QUERY)] else []) ++
    (if enable_socket then [(sockRes, TestMethod.SOCKET_CONNECT)] else []) ++
      (if enable_ping then [(pingRes, TestMethod.PING)] else [])

/-- The result-processing loop: collect every finite numeric result into
`measurements` and its method into `successful_methods`
(`isinstance(result, (int, float)) and result != float("inf")`). -/
def collectResults (pairs : List (Option PyFloat × TestMethod)) :
    List ℚ × List TestMethod :=
  pairs.foldl
    (fun acc p =>
      match p.1 with
      | some (PyFloat.fin q) => (acc.1 ++ [q], setAdd acc.2 p.2)
      | some PyFloat.inf => acc
      | none => acc)
    ([], [])

/-- `_measure_server_latency`: no enabled method ⇒ `(inf, ∅)`; otherwise
sort the collected measurements ascending and return the element at index
`len // 2` together with the set of methods that succeeded; `(inf, ∅)` when
nothing was collected. -/
def measure_server_latency (enable_dns_query HAS_DNSPYTHON enable_socket
    enable_ping : Bool) (dnsRes sockRes pingRes : Option PyFloat) :
    PyFloat × List TestMethod :=
  let pairs := gatherPairs enable_dns_query HAS_DNSPYTHON enable_socket
    enable_ping dnsRes sockRes pingRes
  if pairs = [] then (PyFloat.inf, [])
  else
    let collected := collectResults pairs
    if collected.1 = [] then (PyFloat.inf, [])
    else
      let sorted := collected.1.insertionSort (· ≤ ·)
      (PyFloat.fin (sorted.getD (collected.1.length / 2) 0), collected.2)

/-!
### `_scan_server_multiple` — the per-server worker

One worker performs `ping_count` attempts.  The outcome of one attempt is
either `none` (an exception escaped `_measure_server_latency` or the
inter-attempt sleep and was caught by the worker's `except`) or
`some (latency, methods)`, the pair produced by `_measure_server_latency`.
The attempt index doubles as the abstract `datetime.now()` tick.
-/

/-- The worker's loop-local state: the record under construction plus the
`successful_tests` / `total_latency` / `all_methods` locals. -/
structure WorkerAcc where
  result : DNSResult
  successful_tests : ℕ
  total_latency : ℚ
  all_methods : List TestMethod
deriving DecidableEq

/-- Initial worker state: `DNSResult(server=server, provider=...)` plus
zeroed locals. -/
def initAcc (server provider : String) : WorkerAcc :=
  { result := { server := server, provider := provider }
    successful_tests := 0
    total_latency := 0
    all_methods := [] }

/-- One iteration of the attempt loop.  On
`latency != float("inf") and methods`, accumulate the latency, bump the
local success counter, union the methods into `all_methods`, and feed
`(latency, next(iter(methods)))` to `update_latency`; otherwise (or on an
exception) leave everything unchanged. -/
def attempt_step (acc : WorkerAcc) (now : ℕ)
    (outcome : Option (PyFloat × List TestMethod)) : WorkerAcc :=
  match outcome with
  | none => acc
  | some (latency, methods) =>
    match methods with
    | [] => acc
    | m :: _ =>
      if latency ≠ PyFloat.inf then
        { result := acc.result.update_latency latency m now
          successful_tests := acc.successful_tests + 1
          total_latency := acc.total_latency + latency.toQ
          all_methods := setUpdate acc.all_methods methods }
      else acc

/-- The attempt loop itself, threading the tick. -/
def run_attempts (acc : WorkerAcc) (now : ℕ) :
    List (Option (PyFloat × List TestMethod)) → WorkerAcc
  | [] => acc
  | o :: rest => run_attempts (attempt_step acc now o) (now + 1) rest

/-- Code-point comparison of strings (Python's `str` ordering), restricted
to what `sorted` needs: `lexLe a b` iff `a ≤ b` lexicographically. -/
def lexLe : List Char → List Char → Bool
  | [], _ => true
  | _ :: _, [] => false
  | a :: as, b :: bs =>
    if a.toNat < b.toNat then true
    else if b.toNat < a.toNat then false
    else lexLe as bs

/-- Python's `≤` on strings, lifted to `String`. -/
def nameLe (a b : String) : Prop := lexLe a.data b.data = true

instance nameLe.decRel : DecidableRel nameLe := fun a b =>
  instDecidableEqBool (lexLe a.data b.data) true

/-- `"/".join(sorted(m.display_name for m in ms))`. -/
def joinNames (ms : List TestMethod) : String :=
  String.intercalate "/"
    (List.insertionSort nameLe (ms.map TestMethod.display_name))

/-- The post-loop finalisation: overwrite `avg_latency` with the plain mean
of the successful attempts and set the status line; on zero successes set
the failed status.  Returns the stored record together with the success
flag that decides which aggregate counter the worker bumps. -/
def finalize_worker (ping_count : ℕ) (acc : WorkerAcc) : DNSResult × Bool :=
  if acc.successful_tests > 0 then
    ({ acc.result with
        avg_latency := PyFloat.fin (acc.total_latency / acc.successful_tests)
        status := "OK (" ++ joinNames acc.all_methods ++ ") - " ++
          toString acc.successful_tests ++ "/" ++ toString ping_count },
      true)
  else
    ({ acc.result with status := "Failed - 0/" ++ toString ping_count }, false)

/-- The whole worker body for one server: run all attempts, finalise, and
return the record that is stored into `results[server]`. -/
def run_worker (server provider : String) (ping_count : ℕ)
    (attempts : List (Option (PyFloat × List TestMethod))) : DNSResult :=
  (finalize_worker ping_count (run_attempts (initAcc server provider) 0 attempts)).1

/-!
Spec-side descriptions of a whole attempt list, written directly on the
list rather than through the worker's fold, so the worker theorems relate
the fold to an independent characterisation.
-/

/-- The latencies of the attempts the worker counts as successful
(`latency != inf and methods`), in order. -/
def successLats (attempts : List (Option (PyFloat × List TestMethod))) : List ℚ :=
  attempts.filterMap fun o =>
    match o with
    | some (PyFloat.fin q, _ :: _) => some q
    | _ => none

/-- The union, over the successful attempts, of the methods that succeeded
in that attempt. -/
def specMethods (attempts : List (Option (PyFloat × List TestMethod))) :
    Finset TestMethod :=
  attempts.foldr
    (fun o acc =>
      match o with
      | some (PyFloat.fin _, m :: ms) => (m :: ms).toFinset ∪ acc
      | _ => acc)
    ∅

/-- The single method `update_latency` records per attempt: the head of the
attempt's method list (the model of `next(iter(methods))`), kept only when
the attempt latency is finite and strictly positive (the `update_latency`
guard). -/
def updateHeads (attempts : List (Option (PyFloat × List TestMethod))) :
    List TestMethod :=
  attempts.filterMap fun o =>
    match o with
    | some (PyFloat.fin q, m :: _) => if 0 < q then some m else none
    | _ => none

/-- The canonical enumeration of the methods in alphabetical order of their
display names ("DNS" < "Ping" < "Socket"). -/
def methodsAlpha : List TestMethod :=
  [TestMethod.DNS_QUERY, TestMethod.PING, TestMethod.SOCKET_CONNECT]

/-- Spec-side rendering of a method set: the display names, alphabetically
sorted, joined by "/". -/
def specJoined (s : Finset TestMethod) : String :=
  String.intercalate "/"
    ((methodsAlpha.filter (· ∈ s)).map TestMethod.display_name)

/-!
### Live display sort (`_display_live_results`)
-/

/-- The sort key used by the live display:
`x.avg_latency if x.avg_latency != float("inf") else 999999`. -/
def displayKey (r : DNSResult) : ℚ :=
  match r.avg_latency with
  | .fin q => q
  | .inf => 999999

/-- `sorted(self.results.values(), key=...)` over a snapshot of the stored
records. -/
def displaySorted (rs : List DNSResult) : List DNSResult :=
  rs.insertionSort (fun a b => displayKey a ≤ displayKey b)

/-!
### Worker / live-reporter interleaving

Steps are the code slices between points where a coroutine actually
suspends.  The relevant tail of `_scan_server_multiple` — lines 928–940:
bump `self._stats["successful"]` or `["failed"]`, enter
`async with self._lock`, store `self.results[server]`, bump
`self._stats["scanned"]` — is one such slice: CPython's
`asyncio.Lock.acquire` returns synchronously when the lock is uncontended,
and neither locked region in scanner.py contains an `await` (the worker's
write block, lines 938–940, nor the live reporter's display block, lines
1014–1076), so the lock is free whenever any coroutine is running and the
acquire at line 938 never suspends.  The attempt loop before that slice
mutates only worker-local state.  The live reporter's locked read is
likewise atomic, so a reader observation is a look at any reachable
state.  Each worker owns a distinct server, so records are indexed by
`Fin n`.
-/

/-- Whether one worker has run its final (atomic) shared-state slice. -/
inductive WPhase where
  | pending
  | done
deriving DecidableEq

/-- The shared `ScanState`: the three counters and the results map
(slot `i` holds worker `i`'s stored record, if any). -/
structure SysState (n : ℕ) where
  successful : ℕ
  failed : ℕ
  scanned : ℕ
  results : Fin n → Option DNSResult
  phase : Fin n → WPhase

/-- Before any worker reaches its final slice. -/
def initState (n : ℕ) : SysState n :=
  { successful := 0
    failed := 0
    scanned := 0
    results := fun _ => none
    phase := fun _ => WPhase.pending }

/-- One scheduler step: worker `i` runs its final slice, executing lines
928–940 without an intervening suspension — the success/fail counter bump,
the results-map write and the scanned bump land together.  `outcome i` is
whether the worker had `successful_tests > 0`; `record i` is the record it
stores. -/
inductive SysStep {n : ℕ} (outcome : Fin n → Bool) (record : Fin n → DNSResult) :
    SysState n → SysState n → Prop
  | finish (s : SysState n) (i : Fin n) (hp : s.phase i = WPhase.pending) :
      SysStep outcome record s
        { s with
          successful := if outcome i then s.successful + 1 else s.successful
          failed := if outcome i then s.failed else s.failed + 1
          scanned := s.scanned + 1
          results := Function.update s.results i (some (record i))
          phase := Function.update s.phase i WPhase.done }

/-- Reachability from the initial state. -/
def Reach {n : ℕ} (outcome : Fin n → Bool) (record : Fin n → DNSResult)
    (s : SysState n) : Prop :=
  Relation.ReflTransGen (SysStep outcome record) (initState n) s

/-- Indicator: a record is present in a results-map slot. -/
def storedInd : Option DNSResult → ℕ := fun o => if o.isSome then 1 else 0

/-- Number of records present in the results map. -/
def storedCount {n : ℕ} (s : SysState n) : ℕ :=
  ∑ i, storedInd (s.results i)

/-!
### IP validation (`IP_REGEX` / `is_valid_ip`)

The pattern
`^(?:(?:25[0-5]|2[0-4][0-9]|[01]?[0-9][0-9]?)\.){3}(?:25[0-5]|2[0-4][0-9]|[01]?[0-9][0-9]?)$`
is embedded as a pattern datatype with a backtracking acceptance function.
`re.match` anchors at the start; Python's `$` matches at the end of the
string or just before a newline that ends the string, which the final
continuation reproduces.  Character classes test code points.
-/

/-- The regex fragments `IP_REGEX` is built from: a single-character
class, concatenation, alternation, and the greedy `?`. -/
inductive Pat where
  | cls : (Char → Bool) → Pat
  | seq : Pat → Pat → Pat
  | alt : Pat → Pat → Pat
  | opt : Pat → Pat

/-- Backtracking matcher in continuation style: `matchP p s k` decides
whether some prefix of `s` matches `p` with the rest accepted by `k`. -/
def matchP : Pat → List Char → (List Char → Bool) → Bool
  | .cls f, s, k =>
    match s with
    | [] => false
    | c :: rest => f c && k rest
  | .seq p q, s, k => matchP p s fun r => matchP q r k
  | .alt p q, s, k => matchP p s k || matchP q s k
  | .opt p, s, k => matchP p s k || k s

/-- The language of a pattern, for relating the matcher to a declarative
description. -/
def Accepts : Pat → List Char → Prop
  | .cls f, l => ∃ c, l = [c] ∧ f c = true
  | .seq p q, l => ∃ u v, l = u ++ v ∧ Accepts p u ∧ Accepts q v
  | .alt p q, l => Accepts p l ∨ Accepts q l
  | .opt p, l => l = [] ∨ Accepts p l

/-- Literal character (`2`, `5`, `\.`). -/
def litP (c : Char) : Pat := .cls (fun x => decide (x.toNat = c.toNat))

/-- Code-point range class (`[0-9]`, `[0-4]`, `[0-5]`). -/
def rangeP (a b : Char) : Pat :=
  .cls (fun x => decide (a.toNat ≤ x.toNat) && decide (x.toNat ≤ b.toNat))

/-- The octet alternation `25[0-5]|2[0-4][0-9]|[01]?[0-9][0-9]?`. -/
def octetPat : Pat :=
  .alt (.seq (litP '2') (.seq (litP '5') (rangeP '0' '5')))
    (.alt (.seq (litP '2') (.seq (rangeP '0' '4') (rangeP '0' '9')))
      (.seq (.opt (rangeP '0' '1')) (.seq (rangeP '0' '9') (.opt (rangeP '0' '9')))))

/-- `(?:(?:octet)\.){3}(?:octet)`. -/
def ipPat : Pat :=
  .seq (.seq octetPat (litP '.'))
    (.seq (.seq octetPat (litP '.'))
      (.seq (.seq octetPat (litP '.')) octetPat))

/-- `DNSLatencyScanner.is_valid_ip`: `bool(IP_REGEX.match(ip))`.  The
continuation encodes Python's `$`: the remainder must be empty or a single
string-final newline. -/
def is_valid_ip (ip : String) : Bool :=
  matchP ipPat ip.data fun rest => rest.isEmpty || rest == ['\n']

/-- A digit code point. -/
def isDig (c : Char) : Bool := 48 ≤ c.toNat && c.toNat ≤ 57

/-- Numeric value of a digit group. -/
def groupVal (g : List Char) : ℕ :=
  g.foldl (fun a c => a * 10 + (c.toNat - 48)) 0

/-- Clean description of one octet group: one to three digits whose value
is at most 255. -/
def OctetStr (g : List Char) : Bool :=
  g.all isDig && decide (1 ≤ g.length) && decide (g.length ≤ 3) &&
    decide (groupVal g ≤ 255)

/-- Clean description of a dotted quad: four octet groups separated by
literal dots. -/
def DottedQuad (l : List Char) : Prop :=
  ∃ g1 g2 g3 g4,
    l = g1 ++ '.' :: (g2 ++ '.' :: (g3 ++ '.' :: g4)) ∧
      OctetStr g1 = true ∧ OctetStr g2 = true ∧ OctetStr g3 = true ∧
        OctetStr g4 = true

/-!
## Helper lemmas about `update_latency`
-/

theorem update_latency_inf (r : DNSResult) (m : TestMethod) (now : ℕ) :
    r.update_latency PyFloat.inf m now = r := by
  simp [DNSResult.update_latency]

theorem update_latency_nonpos (r : DNSResult) (m : TestMethod) (now : ℕ)
    (q : ℚ) (h : q ≤ 0) : r.update_latency (PyFloat.fin q) m now = r := by
  simp [DNSResult.update_latency, PyFloat.posB, not_lt.mpr h]

theorem update_latency_pos (r : DNSResult) (m : TestMethod) (now : ℕ)
    (q : ℚ) (h : 0 < q) :
    r.update_latency (PyFloat.fin q) m now =
      { r with
        ping_count := r.ping_count + 1
        avg_latency :=
          if r.avg_latency = PyFloat.inf then PyFloat.fin q
          else
            PyFloat.fin ((r.avg_latency.toQ * (min ((r.ping_count + 1 : ℕ) : ℚ) 10 - 1) + q) /
              min ((r.ping_count + 1 : ℕ) : ℚ) 10)
        latency := PyFloat.fin q
        successful_methods := setAdd r.successful_methods m
        last_updated := now } := by
  rw [DNSResult.update_latency, if_pos]
  · split <;> simp_all [PyFloat.toQ]
  · exact ⟨by simp, by simp [PyFloat.posB, h]⟩

/-!
## C10 — `update_latency` frame conditions
-/

/-- C10: calling `DNSResult.update_latency` with latency `+∞` or with a
latency `≤ 0` leaves the record unchanged in every field; a finite strictly
positive latency always mutates the record (it increments `ping_count`). -/
theorem update_latency_frame :
    (∀ (r : DNSResult) (m : TestMethod) (now : ℕ),
        r.update_latency PyFloat.inf m now = r) ∧
      (∀ (r : DNSResult) (m : TestMethod) (now : ℕ) (q : ℚ), q ≤ 0 →
        r.update_latency (PyFloat.fin q) m now = r) ∧
      (∀ (r : DNSResult) (m : TestMethod) (now : ℕ) (q : ℚ), 0 < q →
        (r.update_latency (PyFloat.fin q) m now).ping_count = r.ping_count + 1 ∧
          r.update_latency (PyFloat.fin q) m now ≠ r) := by
  refine ⟨update_latency_inf, update_latency_nonpos, fun r m now q h => ?_⟩
  rw [update_latency_pos r m now q h]
  refine ⟨rfl, fun hc => ?_⟩
  have := congrArg DNSResult.ping_count hc
  simp at this

/-- Witness for C10 at a concrete record and latencies. -/
theorem update_latency_frame_witness :
    ((-5 : ℚ) ≤ 0 ∧
        DNSResult.update_latency { server := "w" } (PyFloat.fin (-5))
          TestMethod.PING 7 = { server := "w" }) ∧
      ((0 : ℚ) < 5 ∧
        DNSResult.update_latency { server := "w" } (PyFloat.fin 5)
            TestMethod.PING 7 ≠ { server := "w" }) :=
  ⟨⟨by norm_num, update_latency_frame.2.1 _ _ _ _ (by norm_num)⟩,
    ⟨by norm_num, (update_latency_frame.2.2 _ _ _ _ (by norm_num)).2⟩⟩

/-!
## C4 — incremental weighted average
-/

/-- C4: the incremental weighted-average rule.  On a successful update with
weight `w = min(ping_count_after_increment, 10)`: a first success stores the
latency itself, a later success stores `(avg·(w−1) + latency)/w`; the
sequence 10, 20, 30 from a fresh record produces running averages 10, 15,
20. -/
theorem update_latency_weighted_average :
    (∀ (r : DNSResult) (m : TestMethod) (now : ℕ) (q : ℚ), 0 < q →
        r.avg_latency = PyFloat.inf →
        (r.update_latency (PyFloat.fin q) m now).avg_latency = PyFloat.fin q) ∧
      (∀ (r : DNSResult) (m : TestMethod) (now : ℕ) (q a : ℚ), 0 < q →
        r.avg_latency = PyFloat.fin a →
        (r.update_latency (PyFloat.fin q) m now).avg_latency =
          PyFloat.fin ((a * (min ((r.ping_count + 1 : ℕ) : ℚ) 10 - 1) + q) /
            min ((r.ping_count + 1 : ℕ) : ℚ) 10)) ∧
      (((({ server := "s" } : DNSResult).update_latency (PyFloat.fin 10)
              TestMethod.PING 0).update_latency (PyFloat.fin 20)
            TestMethod.PING 1).update_latency (PyFloat.fin 30)
          TestMethod.PING 2).avg_latency = PyFloat.fin 20 ∧
      ((({ server := "s" } : DNSResult).update_latency (PyFloat.fin 10)
            TestMethod.PING 0).update_latency (PyFloat.fin 20)
          TestMethod.PING 1).avg_latency = PyFloat.fin 15 ∧
      (({ server := "s" } : DNSResult).update_latency (PyFloat.fin 10)
          TestMethod.PING 0).avg_latency = PyFloat.fin 10 := by
  have hfirst : ∀ (r : DNSResult) (m : TestMethod) (now : ℕ) (q : ℚ), 0 < q →
      r.avg_latency = PyFloat.inf →
      (r.update_latency (PyFloat.fin q) m now).avg_latency = PyFloat.fin q := by
    intro r m now q hq ha
    rw [update_latency_pos r m now q hq]
    simp [ha]
  have hlater : ∀ (r : DNSResult) (m : TestMethod) (now : ℕ) (q a : ℚ), 0 < q →
      r.avg_latency = PyFloat.fin a →
      (r.update_latency (PyFloat.fin q) m now).avg_latency =
        PyFloat.fin ((a * (min ((r.ping_count + 1 : ℕ) : ℚ) 10 - 1) + q) /
          min ((r.ping_count + 1 : ℕ) : ℚ) 10) := by
    intro r m now q a hq ha
    rw [update_latency_pos r m now q hq]
    simp [ha, PyFloat.toQ]
  have h1 : (({ server := "s" } : DNSResult).update_latency (PyFloat.fin 10)
      TestMethod.PING 0) =
      { server := "s", latency := PyFloat.fin 10, avg_latency := PyFloat.fin 10,
        ping_count := 1, successful_methods := [TestMethod.PING] } := by
    rw [update_latency_pos _ _ _ _ (by norm_num)]
    simp [setAdd]
  have h2 : ((({ server := "s" } : DNSResult).update_latency (PyFloat.fin 10)
      TestMethod.PING 0).update_latency (PyFloat.fin 20) TestMethod.PING 1) =
      { server := "s", latency := PyFloat.fin 20, avg_latency := PyFloat.fin 15,
        ping_count := 2, successful_methods := [TestMethod.PING],
        last_updated := 1 } := by
    rw [h1, update_latency_pos _ _ _ _ (by norm_num)]
    simp [setAdd, PyFloat.toQ]
    norm_num
  have h3 : (((({ server := "s" } : DNSResult).update_latency (PyFloat.fin 10)
      TestMethod.PING 0).update_latency (PyFloat.fin 20)
        TestMethod.PING 1).update_latency (PyFloat.fin 30) TestMethod.PING 2) =
      { server := "s", latency := PyFloat.fin 30, avg_latency := PyFloat.fin 20,
        ping_count := 3, successful_methods := [TestMethod.PING],
        last_updated := 2 } := by
    rw [h2, update_latency_pos _ _ _ _ (by norm_num)]
    simp [setAdd, PyFloat.toQ]
    norm_num
  exact ⟨hfirst, hlater, by rw [h3], by rw [h2], by rw [h1]⟩

/-- Witness for C4 at a concrete non-fresh record. -/
theorem update_latency_weighted_average_witness :
    (0 : ℚ) < 7 ∧
      (({ server := "w", avg_latency := PyFloat.fin 5,
            ping_count := 1 } : DNSResult).update_latency (PyFloat.fin 7)
          TestMethod.PING 3).avg_latency =
        PyFloat.fin ((5 * (min ((1 + 1 : ℕ) : ℚ) 10 - 1) + 7) /
          min ((1 + 1 : ℕ) : ℚ) 10) :=
  ⟨by norm_num, update_latency_weighted_average.2.1 _ _ _ _ _ (by norm_num) rfl⟩

/-!
## C2 — the 5000 ms sanity ceiling
-/

/-- C2 counterexample: with ping enabled, no exception and return code 0,
a parsed round-trip time of 6000 ms (≥ the 5000 ms ceiling) is returned
as-is by the echo probe instead of being discarded as `None`. -/
theorem sanity_ceiling_cex :
    measure_ping_latency true false 0 (some 6000) = some 6000 ∧
      (5000 : ℚ) ≤ 6000 := by
  constructor
  · simp [measure_ping_latency]
  · norm_num

/-- C2 amended: the resolution-query and connection probes discard any
measured result `≥ 5000` ms by returning `None`, but the echo probe applies
no such ceiling — it returns whatever value its output parse produced. -/
theorem sanity_ceiling :
    (∀ (edq hdp : Bool) (lat : ℚ), 5000 ≤ lat →
        measure_dns_query_latency edq hdp false lat = none) ∧
      (∀ (es : Bool) (lat : ℚ), 5000 ≤ lat →
        measure_socket_latency es false lat = none) ∧
      (∀ q : ℚ, 5000 ≤ q →
        measure_ping_latency true false 0 (some q) = some q) := by
  refine ⟨fun edq hdp lat h => ?_, fun es lat h => ?_, fun q _ => ?_⟩
  · cases hc : (edq && hdp) <;>
      simp [measure_dns_query_latency, hc, not_lt.mpr h]
  · cases es <;> simp [measure_socket_latency, not_lt.mpr h]
  · simp [measure_ping_latency]

/-- Witness for C2's amended theorem at latency 6000. -/
theorem sanity_ceiling_witness :
    (5000 : ℚ) ≤ 6000 ∧
      measure_dns_query_latency true true false 6000 = none ∧
      measure_socket_latency true false 6000 = none ∧
      measure_ping_latency true false 0 (some 6000) = some 6000 :=
  ⟨by norm_num, sanity_ceiling.1 true true 6000 (by norm_num),
    sanity_ceiling.2.1 true 6000 (by norm_num),
    sanity_ceiling.2.2 6000 (by norm_num)⟩

/-!
## C1 — per-attempt median

Order-statistic facts about the element a sorted list holds at index `i`.
-/

theorem sorted_countP_lt_le (l : List ℚ) (hs : l.Sorted (· ≤ ·)) (i : ℕ)
    (hi : i < l.length) :
    l.countP (fun x => decide (x < l.get ⟨i, hi⟩)) ≤ i := by
  set m := l.get ⟨i, hi⟩ with hm
  have hc : (l.take i ++ l.drop i).countP (fun x => decide (x < m)) =
      l.countP (fun x => decide (x < m)) := by
    rw [List.take_append_drop]
  rw [← hc, List.countP_append]
  have h1 : (l.take i).countP (fun x => decide (x < m)) ≤ i := by
    have := List.countP_le_length (l := l.take i) (fun x => decide (x < m))
    have hlen : (l.take i).length ≤ i := by
      simp [List.length_take]
    omega
  have h2 : (l.drop i).countP (fun x => decide (x < m)) = 0 := by
    rw [List.countP_eq_zero]
    intro a ha
    obtain ⟨j, hj⟩ := List.mem_iff_get.mp ha
    have hjb : i + j.1 < l.length := by
      have := j.2; simp [List.length_drop] at this; omega
    have hgd : (l.drop i).get j = l.get ⟨i + j.1, hjb⟩ := by
      simp [List.get_drop]
    have hle : m ≤ a := by
      rcases Nat.eq_zero_or_pos j.1 with h0 | hpos
      · rw [← hj, hgd]
        have : (⟨i + j.1, hjb⟩ : Fin l.length) = ⟨i, hi⟩ := by
          apply Fin.ext; simp [h0]
        rw [this]
      · rw [← hj, hgd, hm]
        exact List.Sorted.rel_get_of_lt hs (by simp; omega)
    simp [not_lt.mpr hle]
  omega

theorem sorted_countP_gt_le (l : List ℚ) (hs : l.Sorted (· ≤ ·)) (i : ℕ)
    (hi : i < l.length) :
    l.countP (fun x => decide (l.get ⟨i, hi⟩ < x)) ≤ l.length - 1 - i := by
  set m := l.get ⟨i, hi⟩ with hm
  have hc : (l.take (i + 1) ++ l.drop (i + 1)).countP (fun x => decide (m < x)) =
      l.countP (fun x => decide (m < x)) := by
    rw [List.take_append_drop]
  rw [← hc, List.countP_append]
  have h1 : (l.take (i + 1)).countP (fun x => decide (m < x)) = 0 := by
    rw [List.countP_eq_zero]
    intro a ha
    obtain ⟨j, hj⟩ := List.mem_iff_get.mp ha
    have hjlen : j.1 < l.length := by
      have := j.2; simp [List.length_take] at this; omega
    have hji : j.1 ≤ i := by
      have := j.2; simp [List.length_take] at this; omega
    have hgt : (l.take (i + 1)).get j = l.get ⟨j.1, hjlen⟩ := by
      simp [List.get_take]
    have hle : a ≤ m := by
      rcases Nat.lt_or_ge j.1 i with hlt | hge
      · rw [← hj, hgt, hm]
        exact List.Sorted.rel_get_of_lt hs (by simp [hlt])
      · have hji' : j.1 = i := by omega
        rw [← hj, hgt, hm]
        have : (⟨j.1, hjlen⟩ : Fin l.length) = ⟨i, hi⟩ := by
          apply Fin.ext; simp [hji']
        rw [this]
    simp [not_lt.mpr hle]
  have h2 : (l.drop (i + 1)).countP (fun x => decide (m < x)) ≤
      l.length - 1 - i := by
    have := List.countP_le_length (l := l.drop (i + 1)) (fun x => decide (m < x))
    have hlen : (l.drop (i + 1)).length = l.length - (i + 1) := by
      simp [List.length_drop]
    omega
  omega

/-- The measurement list one attempt collects, extracted for stating the
median property. -/
def collectedMeasurements (enable_dns_query HAS_DNSPYTHON enable_socket
    enable_ping : Bool) (dnsRes sockRes pingRes : Option PyFloat) : List ℚ :=
  (collectResults (gatherPairs enable_dns_query HAS_DNSPYTHON enable_socket
    enable_ping dnsRes sockRes pingRes)).1

/-- C1 counterexample: with the resolution-query method disabled and the
other two returning 10 ms and 20 ms, the collected values are `[10, 20]`
(even count), and the attempt latency is 20 — the element at index
`len // 2 = 1` of the ascending sort, i.e. the *upper*-middle element — not
the lower-middle 10 the claim prescribes for even counts. -/
theorem attempt_median_cex :
    (measure_server_latency false true true true none (some (PyFloat.fin 10))
        (some (PyFloat.fin 20))).1 = PyFloat.fin 20 ∧
      collectedMeasurements false true true true none (some (PyFloat.fin 10))
          (some (PyFloat.fin 20)) = [10, 20] ∧
      PyFloat.fin 20 ≠ PyFloat.fin (10 : ℚ) := by
  refine ⟨by decide, by decide, by decide⟩

/-- C1 amended: whenever at least one probe method returns a non-null
finite latency, the attempt latency is the element at index
`⌊n/2⌋` of the ascending sort of the `n` collected values — the
upper-middle element for even `n` — and that element is a true median
order-statistic: it belongs to the collected values, fewer than or exactly
`⌊n/2⌋` of them are strictly below it, and at most `⌊(n−1)/2⌋` are strictly
above it.  Combining `[30, 10, 20]` yields 20. -/
theorem attempt_median (enable_dns_query HAS_DNSPYTHON enable_socket
    enable_ping : Bool) (dnsRes sockRes pingRes : Option PyFloat)
    (hne : collectedMeasurements enable_dns_query HAS_DNSPYTHON enable_socket
      enable_ping dnsRes sockRes pingRes ≠ []) :
    ∃ m : ℚ,
      (measure_server_latency enable_dns_query HAS_DNSPYTHON enable_socket
          enable_ping dnsRes sockRes pingRes).1 = PyFloat.fin m ∧
        m = ((collectedMeasurements enable_dns_query HAS_DNSPYTHON
            enable_socket enable_ping dnsRes sockRes pingRes).insertionSort
          (· ≤ ·)).getD
          ((collectedMeasurements enable_dns_query HAS_DNSPYTHON enable_socket
            enable_ping dnsRes sockRes pingRes).length / 2) 0 ∧
        m ∈ collectedMeasurements enable_dns_query HAS_DNSPYTHON enable_socket
          enable_ping dnsRes sockRes pingRes ∧
        (collectedMeasurements enable_dns_query HAS_DNSPYTHON enable_socket
            enable_ping dnsRes sockRes pingRes).countP
            (fun x => decide (x < m)) ≤
          (collectedMeasurements enable_dns_query HAS_DNSPYTHON enable_socket
            enable_ping dnsRes sockRes pingRes).length / 2 ∧
        (collectedMeasurements enable_dns_query HAS_DNSPYTHON enable_socket
            enable_ping dnsRes sockRes pingRes).countP
            (fun x => decide (m < x)) ≤
          ((collectedMeasurements enable_dns_query HAS_DNSPYTHON enable_socket
            enable_ping dnsRes sockRes pingRes).length - 1) / 2 := by
  set ms := collectedMeasurements enable_dns_query HAS_DNSPYTHON enable_socket
    enable_ping dnsRes sockRes pingRes with hms
  set srt := ms.insertionSort (· ≤ ·) with hsrt
  have hperm : List.Perm srt ms := List.perm_insertionSort _ ms
  have hsorted : srt.Sorted (· ≤ ·) := List.sorted_insertionSort _ ms
  have hlen : srt.length = ms.length := hperm.length_eq
  have hpos : 0 < ms.length := List.length_pos.mpr hne
  have hidx : ms.length / 2 < srt.length := by
    rw [hlen]; exact Nat.div_lt_self hpos one_lt_two
  set m := srt.get ⟨ms.length / 2, hidx⟩ with hmdef
  have hgetD : srt.getD (ms.length / 2) 0 = m := List.getD_eq_get srt 0 hidx
  have hres : (measure_server_latency enable_dns_query HAS_DNSPYTHON
      enable_socket enable_ping dnsRes sockRes pingRes).1 = PyFloat.fin m := by
    rw [measure_server_latency]
    have hpairs : gatherPairs enable_dns_query HAS_DNSPYTHON enable_socket
        enable_ping dnsRes sockRes pingRes ≠ [] := by
      intro hp
      apply hne
      rw [hms, collectedMeasurements, hp]
      rfl
    rw [if_neg hpairs, if_neg (by exact hne)]
    exact congrArg PyFloat.fin hgetD
  refine ⟨m, hres, hgetD.symm, ?_, ?_, ?_⟩
  · exact hperm.mem_iff.mp (srt.get_mem _ _)
  · have := sorted_countP_lt_le srt hsorted (ms.length / 2) hidx
    rw [← hmdef] at this
    calc ms.countP (fun x => decide (x < m)) =
        srt.countP (fun x => decide (x < m)) := (hperm.countP_eq _).symm
      _ ≤ ms.length / 2 := this
  · have := sorted_countP_gt_le srt hsorted (ms.length / 2) hidx
    rw [← hmdef, hlen] at this
    have hcp : ms.countP (fun x => decide (m < x)) =
        srt.countP (fun x => decide (m < x)) := (hperm.countP_eq _).symm
    rw [hcp]
    omega

/-- Witness for C1's amended theorem: combining `[30, 10, 20]` yields the
median 20. -/
theorem attempt_median_witness :
    collectedMeasurements true true true true (some (PyFloat.fin 30))
        (some (PyFloat.fin 10)) (some (PyFloat.fin 20)) ≠ [] ∧
      (measure_server_latency true true true true (some (PyFloat.fin 30))
          (some (PyFloat.fin 10)) (some (PyFloat.fin 20))).1 = PyFloat.fin 20 ∧
      (∃ m : ℚ,
        (measure_server_latency true true true true (some (PyFloat.fin 30))
            (some (PyFloat.fin 10)) (some (PyFloat.fin 20))).1 =
          PyFloat.fin m ∧
          m = ((collectedMeasurements true true true true (some (PyFloat.fin 30))
              (some (PyFloat.fin 10)) (some (PyFloat.fin 20))).insertionSort
            (· ≤ ·)).getD
            ((collectedMeasurements true true true true (some (PyFloat.fin 30))
              (some (PyFloat.fin 10)) (some (PyFloat.fin 20))).length / 2) 0 ∧
          m ∈ collectedMeasurements true true true true (some (PyFloat.fin 30))
            (some (PyFloat.fin 10)) (some (PyFloat.fin 20)) ∧
          (collectedMeasurements true true true true (some (PyFloat.fin 30))
              (some (PyFloat.fin 10)) (some (PyFloat.fin 20))).countP
              (fun x => decide (x < m)) ≤
            (collectedMeasurements true true true true (some (PyFloat.fin 30))
              (some (PyFloat.fin 10)) (some (PyFloat.fin 20))).length / 2 ∧
          (collectedMeasurements true true true true (some (PyFloat.fin 30))
              (some (PyFloat.fin 10)) (some (PyFloat.fin 20))).countP
              (fun x => decide (m < x)) ≤
            ((collectedMeasurements true true true true (some (PyFloat.fin 30))
              (some (PyFloat.fin 10)) (some (PyFloat.fin 20))).length - 1) / 2) :=
  ⟨by decide, by decide,
    attempt_median true true true true (some (PyFloat.fin 30))
      (some (PyFloat.fin 10)) (some (PyFloat.fin 20)) (by decide)⟩

/-!
## Worker fold lemmas (shared by the C3/C6/C7 theorems)
-/

theorem setAdd_nodup (l : List TestMethod) (m : TestMethod) (h : l.Nodup) :
    (setAdd l m).Nodup := by
  rw [setAdd]
  split
  · exact h
  · rename_i hm
    simp [List.nodup_append, h, hm]

theorem setAdd_toFinset (l : List TestMethod) (m : TestMethod) :
    (setAdd l m).toFinset = insert m l.toFinset := by
  rw [setAdd]
  split
  · rename_i hm
    have : m ∈ l.toFinset := List.mem_toFinset.mpr hm
    rw [Finset.insert_eq_self.mpr this]
  · simp [List.toFinset_append, Finset.insert_eq, Finset.union_comm]

theorem setUpdate_nodup (ms l : List TestMethod) (h : l.Nodup) :
    (setUpdate l ms).Nodup := by
  induction ms generalizing l with
  | nil => exact h
  | cons x xs ih => exact ih (setAdd l x) (setAdd_nodup l x h)

theorem setUpdate_toFinset (ms l : List TestMethod) :
    (setUpdate l ms).toFinset = l.toFinset ∪ ms.toFinset := by
  induction ms generalizing l with
  | nil => simp [setUpdate]
  | cons x xs ih =>
    have : setUpdate l (x :: xs) = setUpdate (setAdd l x) xs := rfl
    rw [this, ih, setAdd_toFinset]
    ext a
    simp [or_comm, or_left_comm]

theorem setAdd_mem (l : List TestMethod) (m a : TestMethod) :
    a ∈ setAdd l m ↔ a ∈ l ∨ a = m := by
  rw [setAdd]
  split
  · rename_i hm
    constructor
    · exact Or.inl
    · rintro (h | rfl) <;> [exact h; exact hm]
  · simp

theorem run_attempts_counts (attempts : List (Option (PyFloat × List TestMethod))) :
    ∀ (acc : WorkerAcc) (now : ℕ),
      (run_attempts acc now attempts).successful_tests =
          acc.successful_tests + (successLats attempts).length ∧
        (run_attempts acc now attempts).total_latency =
          acc.total_latency + (successLats attempts).sum := by
  induction attempts with
  | nil => intro acc now; simp [run_attempts, successLats]
  | cons o rest ih =>
    intro acc now
    match o with
    | none =>
      have hstep : attempt_step acc now none = acc := rfl
      have hsl : successLats (none :: rest) = successLats rest := rfl
      rw [run_attempts, hstep, hsl]
      exact ih acc (now + 1)
    | some (PyFloat.inf, methods) =>
      have hstep : attempt_step acc now (some (PyFloat.inf, methods)) = acc := by
        cases methods <;> simp [attempt_step]
      have hsl : successLats (some (PyFloat.inf, methods) :: rest) =
          successLats rest := by
        cases methods <;> rfl
      rw [run_attempts, hstep, hsl]
      exact ih acc (now + 1)
    | some (PyFloat.fin q, []) =>
      have hstep : attempt_step acc now (some (PyFloat.fin q, [])) = acc := rfl
      have hsl : successLats (some (PyFloat.fin q, []) :: rest) =
          successLats rest := rfl
      rw [run_attempts, hstep, hsl]
      exact ih acc (now + 1)
    | some (PyFloat.fin q, m :: ms) =>
      have hsl : successLats (some (PyFloat.fin q, m :: ms) :: rest) =
          q :: successLats rest := rfl
      have hstep : attempt_step acc now (some (PyFloat.fin q, m :: ms)) =
          { result := acc.result.update_latency (PyFloat.fin q) m now
            successful_tests := acc.successful_tests + 1
            total_latency := acc.total_latency + q
            all_methods := setUpdate acc.all_methods (m :: ms) } := by
        simp [attempt_step, PyFloat.toQ]
      rw [run_attempts, hstep, hsl]
      obtain ⟨h1, h2⟩ := ih _ (now + 1)
      constructor
      · rw [h1]; simp; omega
      · rw [h2]; simp; ring

theorem run_attempts_all_methods
    (attempts : List (Option (PyFloat × List TestMethod))) :
    ∀ (acc : WorkerAcc) (now : ℕ),
      ((run_attempts acc now attempts).all_methods).toFinset =
          acc.all_methods.toFinset ∪ specMethods attempts ∧
        (acc.all_methods.Nodup →
          ((run_attempts acc now attempts).all_methods).Nodup) := by
  induction attempts with
  | nil => intro acc now; simp [run_attempts, specMethods]
  | cons o rest ih =>
    intro acc now
    match o with
    | none =>
      have hstep : attempt_step acc now none = acc := rfl
      have hsm : specMethods (none :: rest) = specMethods rest := rfl
      rw [run_attempts, hstep, hsm]
      exact ih acc (now + 1)
    | some (PyFloat.inf, methods) =>
      have hstep : attempt_step acc now (some (PyFloat.inf, methods)) = acc := by
        cases methods <;> simp [attempt_step]
      have hsm : specMethods (some (PyFloat.inf, methods) :: rest) =
          specMethods rest := by
        cases methods <;> rfl
      rw [run_attempts, hstep, hsm]
      exact ih acc (now + 1)
    | some (PyFloat.fin q, []) =>
      have hstep : attempt_step acc now (some (PyFloat.fin q, [])) = acc := rfl
      have hsm : specMethods (some (PyFloat.fin q, []) :: rest) =
          specMethods rest := rfl
      rw [run_attempts, hstep, hsm]
      exact ih acc (now + 1)
    | some (PyFloat.fin q, m :: ms) =>
      have hsm : specMethods (some (PyFloat.fin q, m :: ms) :: rest) =
          (m :: ms).toFinset ∪ specMethods rest := rfl
      have hstep : attempt_step acc now (some (PyFloat.fin q, m :: ms)) =
          { result := acc.result.update_latency (PyFloat.fin q) m now
            successful_tests := acc.successful_tests + 1
            total_latency := acc.total_latency + q
            all_methods := setUpdate acc.all_methods (m :: ms) } := by
        simp [attempt_step, PyFloat.toQ]
      rw [run_attempts, hstep, hsm]
      obtain ⟨h1, h2⟩ := ih
        { result := acc.result.update_latency (PyFloat.fin q) m now
          successful_tests := acc.successful_tests + 1
          total_latency := acc.total_latency + q
          all_methods := setUpdate acc.all_methods (m :: ms) } (now + 1)
      constructor
      · rw [h1]
        simp only [setUpdate_toFinset]
        rw [Finset.union_assoc]
      · intro hnd
        exact h2 (setUpdate_nodup (m :: ms) acc.all_methods hnd)

theorem run_attempts_no_success
    (attempts : List (Option (PyFloat × List TestMethod)))
    (h : successLats attempts = []) :
    ∀ (acc : WorkerAcc) (now : ℕ), run_attempts acc now attempts = acc := by
  induction attempts with
  | nil => intro acc now; rfl
  | cons o rest ih =>
    intro acc now
    match o with
    | none =>
      have hr : successLats rest = [] := by
        simpa [successLats] using h
      rw [run_attempts]
      exact ih hr acc (now + 1)
    | some (PyFloat.inf, methods) =>
      have hstep : attempt_step acc now (some (PyFloat.inf, methods)) = acc := by
        cases methods <;> simp [attempt_step]
      have hr : successLats rest = [] := by
        cases methods <;> simpa [successLats] using h
      rw [run_attempts, hstep]
      exact ih hr acc (now + 1)
    | some (PyFloat.fin q, []) =>
      have hr : successLats rest = [] := by
        simpa [successLats] using h
      rw [run_attempts]
      exact ih hr acc (now + 1)
    | some (PyFloat.fin q, m :: ms) =>
      exfalso
      have : successLats (some (PyFloat.fin q, m :: ms) :: rest) =
          q :: successLats rest := rfl
      rw [this] at h
      exact List.cons_ne_nil _ _ h

theorem run_attempts_record (attempts : List (Option (PyFloat × List TestMethod))) :
    ∀ (acc : WorkerAcc) (now : ℕ),
      (run_attempts acc now attempts).result.successful_methods =
          (updateHeads attempts).foldl setAdd acc.result.successful_methods ∧
        ((∀ x ∈ successLats attempts, 0 < x) →
          (run_attempts acc now attempts).result.ping_count =
            acc.result.ping_count + (successLats attempts).length) := by
  induction attempts with
  | nil => intro acc now; simp [run_attempts, updateHeads, successLats]
  | cons o rest ih =>
    intro acc now
    match o with
    | none =>
      have hstep : attempt_step acc now none = acc := rfl
      have hh : updateHeads (none :: rest) = updateHeads rest := rfl
      have hsl : successLats (none :: rest) = successLats rest := rfl
      rw [run_attempts, hstep, hh, hsl]
      exact ih acc (now + 1)
    | some (PyFloat.inf, methods) =>
      have hstep : attempt_step acc now (some (PyFloat.inf, methods)) = acc := by
        cases methods <;> simp [attempt_step]
      have hh : updateHeads (some (PyFloat.inf, methods) :: rest) =
          updateHeads rest := by
        cases methods <;> rfl
      have hsl : successLats (some (PyFloat.inf, methods) :: rest) =
          successLats rest := by
        cases methods <;> rfl
      rw [run_attempts, hstep, hh, hsl]
      exact ih acc (now + 1)
    | some (PyFloat.fin q, []) =>
      have hstep : attempt_step acc now (some (PyFloat.fin q, [])) = acc := rfl
      have hh : updateHeads (some (PyFloat.fin q, []) :: rest) =
          updateHeads rest := rfl
      have hsl : successLats (some (PyFloat.fin q, []) :: rest) =
          successLats rest := rfl
      rw [run_attempts, hstep, hh, hsl]
      exact ih acc (now + 1)
    | some (PyFloat.fin q, m :: ms) =>
      have hsl : successLats (some (PyFloat.fin q, m :: ms) :: rest) =
          q :: successLats rest := rfl
      have hstep : attempt_step acc now (some (PyFloat.fin q, m :: ms)) =
          { result := acc.result.update_latency (PyFloat.fin q) m now
            successful_tests := acc.successful_tests + 1
            total_latency := acc.total_latency + q
            all_methods := setUpdate acc.all_methods (m :: ms) } := by
        simp [attempt_step, PyFloat.toQ]
      rw [run_attempts, hstep, hsl]
      by_cases hq : 0 < q
      · have hh : updateHeads (some (PyFloat.fin q, m :: ms) :: rest) =
            m :: updateHeads rest := by
          simp [updateHeads, hq]
        rw [hh]
        have hup := update_latency_pos acc.result m now q hq
        obtain ⟨h1, h2⟩ := ih
          { result := acc.result.update_latency (PyFloat.fin q) m now
            successful_tests := acc.successful_tests + 1
            total_latency := acc.total_latency + q
            all_methods := setUpdate acc.all_methods (m :: ms) } (now + 1)
        constructor
        · rw [h1, hup]
          rfl
        · intro hpos
          have hrest : ∀ x ∈ successLats rest, 0 < x := by
            intro x hx
            exact hpos x (List.mem_cons_of_mem _ hx)
          rw [h2 hrest, hup]
          simp
          omega
      · have hq' : q ≤ 0 := not_lt.mp hq
        have hh : updateHeads (some (PyFloat.fin q, m :: ms) :: rest) =
            updateHeads rest := by
          simp [updateHeads, hq]
        rw [hh]
        have hup := update_latency_nonpos acc.result m now q hq'
        obtain ⟨h1, h2⟩ := ih
          { result := acc.result.update_latency (PyFloat.fin q) m now
            successful_tests := acc.successful_tests + 1
            total_latency := acc.total_latency + q
            all_methods := setUpdate acc.all_methods (m :: ms) } (now + 1)
        constructor
        · rw [h1, hup]
        · intro hpos
          exfalso
          have : 0 < q := hpos q (List.mem_cons_self _ _)
          exact hq this

/-!
## Lexicographic string order: total, transitive, antisymmetric
-/

theorem char_toNat_inj {a b : Char} (h : a.toNat = b.toNat) : a = b := by
  apply Char.ext
  apply UInt32.ext
  exact h

theorem lexLe_total : ∀ a b : List Char, lexLe a b = true ∨ lexLe b a = true := by
  intro a
  induction a with
  | nil => intro b; left; rfl
  | cons x xs ih =>
    intro b
    cases b with
    | nil => right; rfl
    | cons y ys =>
      rcases Nat.lt_trichotomy x.toNat y.toNat with h | h | h
      · left; simp [lexLe, h]
      · rcases ih ys with h2 | h2
        · left; simp [lexLe, h, h2]
        · right; simp [lexLe, h.symm, h2]
      · right; simp [lexLe, h]

theorem lexLe_trans : ∀ a b c : List Char,
    lexLe a b = true → lexLe b c = true → lexLe a c = true := by
  intro a
  induction a with
  | nil => intro b c _ _; rfl
  | cons x xs ih =>
    intro b c hab hbc
    cases b with
    | nil => simp [lexLe] at hab
    | cons y ys =>
      cases c with
      | nil => simp [lexLe] at hbc
      | cons z zs =>
        rw [lexLe] at hab hbc ⊢
        by_cases hxy : x.toNat < y.toNat
        · by_cases hyz : y.toNat < z.toNat
          · simp [Nat.lt_trans hxy hyz]
          · by_cases hzy : z.toNat < y.toNat
            · simp [hyz, hzy] at hbc
            · have : y.toNat = z.toNat := by omega
              simp [this ▸ hxy]
        · by_cases hyx : y.toNat < x.toNat
          · simp [hxy, hyx] at hab
          · have hxyeq : x.toNat = y.toNat := by omega
            by_cases hyz : y.toNat < z.toNat
            · simp [hxyeq ▸ hyz]
            · by_cases hzy : z.toNat < y.toNat
              · simp [hyz, hzy] at hbc
              · have hyzeq : y.toNat = z.toNat := by omega
                simp [hxy, hyx] at hab
                simp [hyz, hzy] at hbc
                have hxz : ¬x.toNat < z.toNat := by omega
                have hzx : ¬z.toNat < x.toNat := by omega
                simp [hxz, hzx]
                exact ih ys zs hab hbc

theorem lexLe_antisymm : ∀ a b : List Char,
    lexLe a b = true → lexLe b a = true → a = b := by
  intro a
  induction a with
  | nil =>
    intro b _ hba
    cases b with
    | nil => rfl
    | cons y ys => simp [lexLe] at hba
  | cons x xs ih =>
    intro b hab hba
    cases b with
    | nil => simp [lexLe] at hab
    | cons y ys =>
      rw [lexLe] at hab hba
      by_cases hxy : x.toNat < y.toNat
      · have : ¬y.toNat < x.toNat := by omega
        simp [hxy, this] at hba
      · by_cases hyx : y.toNat < x.toNat
        · simp [hxy, hyx] at hab
        · have hxyeq : x.toNat = y.toNat := by omega
          simp [hxy, hyx] at hab hba
          rw [char_toNat_inj hxyeq, ih ys hab hba]

instance : IsTotal String nameLe :=
  ⟨fun a b => lexLe_total a.data b.data⟩

instance : IsTrans String nameLe :=
  ⟨fun a b c => lexLe_trans a.data b.data c.data⟩

instance : IsAntisymm String nameLe :=
  ⟨fun a b hab hba => by
    cases a; cases b
    exact congrArg String.mk (lexLe_antisymm _ _ hab hba)⟩

theorem methodsAlpha_complete : ∀ m : TestMethod, m ∈ methodsAlpha := by
  intro m
  cases m <;> simp [methodsAlpha]

theorem methodsAlpha_nodup : methodsAlpha.Nodup := by decide

/-- Sorting the display names of a duplicate-free method list is the same
as filtering the alphabetical enumeration. -/
theorem sortNames_eq (ms : List TestMethod) (h : ms.Nodup) :
    List.insertionSort nameLe (ms.map TestMethod.display_name) =
      (methodsAlpha.filter (· ∈ ms)).map TestMethod.display_name := by
  have hpermMs : List.Perm ms (methodsAlpha.filter (· ∈ ms)) := by
    rw [List.perm_ext_iff_of_nodup h (methodsAlpha_nodup.filter _)]
    intro a
    simp [List.mem_filter, methodsAlpha_complete a]
  have hperm : List.Perm (List.insertionSort nameLe (ms.map TestMethod.display_name))
      ((methodsAlpha.filter (· ∈ ms)).map TestMethod.display_name) :=
    (List.perm_insertionSort _ _).trans (hpermMs.map _)
  refine List.eq_of_perm_of_sorted hperm (List.sorted_insertionSort _ _) ?_
  by_cases h1 : TestMethod.DNS_QUERY ∈ ms <;>
    by_cases h2 : TestMethod.PING ∈ ms <;>
      by_cases h3 : TestMethod.SOCKET_CONNECT ∈ ms
  all_goals simp [methodsAlpha, h1, h2, h3, TestMethod.display_name]
  all_goals decide

/-- `joinNames` renders exactly the spec-side description of the status
line's method list. -/
theorem joinNames_eq_specJoined (ms : List TestMethod) (h : ms.Nodup) :
    joinNames ms = specJoined ms.toFinset := by
  rw [joinNames, specJoined]
  have hfil : methodsAlpha.filter (· ∈ ms.toFinset) =
      methodsAlpha.filter (· ∈ ms) := by
    apply List.filter_congr
    intro a _
    simp [List.mem_toFinset]
  rw [hfil, sortNames_eq ms h]

/-!
## Finalisation lemmas
-/

theorem finalize_pos (P : ℕ) (acc : WorkerAcc) (h : 0 < acc.successful_tests) :
    (finalize_worker P acc).1 =
      { acc.result with
        avg_latency := PyFloat.fin (acc.total_latency / (acc.successful_tests : ℚ))
        status := "OK (" ++ joinNames acc.all_methods ++ ") - " ++
          toString acc.successful_tests ++ "/" ++ toString P } := by
  rw [finalize_worker, if_pos h]

theorem finalize_zero (P : ℕ) (acc : WorkerAcc) (h : acc.successful_tests = 0) :
    (finalize_worker P acc).1 =
      { acc.result with status := "Failed - 0/" ++ toString P } := by
  rw [finalize_worker, if_neg (by omega)]

theorem finalize_successful_methods (P : ℕ) (acc : WorkerAcc) :
    ((finalize_worker P acc).1).successful_methods =
      acc.result.successful_methods := by
  rw [finalize_worker]
  split <;> rfl

/-!
## C3 — the worker's final record
-/

/-- C3: after all attempts, a worker with at least one successful attempt
stores `averageLatencyMs` equal to the plain arithmetic mean of the
successful attempt latencies (superseding the incremental weighted value)
and a status of `"OK (<display names, alphabetically sorted, joined by
'/'>) - <successes>/<P>"`; a worker with no successful attempt stores the
status `"Failed - 0/<P>"`. -/
theorem worker_final_record (server provider : String) (P : ℕ)
    (attempts : List (Option (PyFloat × List TestMethod))) :
    (0 < (successLats attempts).length →
      (run_worker server provider P attempts).avg_latency =
          PyFloat.fin ((successLats attempts).sum /
            ((successLats attempts).length : ℚ)) ∧
        (run_worker server provider P attempts).status =
          "OK (" ++ specJoined (specMethods attempts) ++ ") - " ++
            toString (successLats attempts).length ++ "/" ++ toString P) ∧
      ((successLats attempts).length = 0 →
        (run_worker server provider P attempts).status =
          "Failed - 0/" ++ toString P) := by
  obtain ⟨hst, htot⟩ := run_attempts_counts attempts (initAcc server provider) 0
  have hst' : (run_attempts (initAcc server provider) 0 attempts).successful_tests =
      (successLats attempts).length := by
    simpa [initAcc] using hst
  have htot' : (run_attempts (initAcc server provider) 0 attempts).total_latency =
      (successLats attempts).sum := by
    simpa [initAcc] using htot
  obtain ⟨hm, hnd⟩ := run_attempts_all_methods attempts (initAcc server provider) 0
  have hmf : ((run_attempts (initAcc server provider) 0 attempts).all_methods).toFinset =
      specMethods attempts := by
    simpa [initAcc] using hm
  have hnd' : ((run_attempts (initAcc server provider) 0 attempts).all_methods).Nodup :=
    hnd (by simp [initAcc])
  have hrw : run_worker server provider P attempts =
      (finalize_worker P (run_attempts (initAcc server provider) 0 attempts)).1 :=
    rfl
  constructor
  · intro hpos
    have hfin := finalize_pos P (run_attempts (initAcc server provider) 0 attempts)
      (by omega)
    constructor
    · rw [hrw, hfin]
      simp only []
      rw [hst', htot']
    · rw [hrw, hfin]
      simp only []
      rw [joinNames_eq_specJoined _ hnd', hmf, hst']
  · intro hzero
    have hsl : successLats attempts = [] := List.length_eq_zero.mp hzero
    have hfin := finalize_zero P (run_attempts (initAcc server provider) 0 attempts)
      (by omega)
    rw [hrw, hfin]

/-- Witness for C3 at a concrete two-success run. -/
theorem worker_final_record_witness :
    0 < (successLats [some (PyFloat.fin 10, [TestMethod.PING]),
        some (PyFloat.fin 30, [TestMethod.PING])]).length ∧
      (run_worker "8.8.8.8" "G" 4 [some (PyFloat.fin 10, [TestMethod.PING]),
            some (PyFloat.fin 30, [TestMethod.PING])]).avg_latency =
          PyFloat.fin ((successLats [some (PyFloat.fin 10, [TestMethod.PING]),
                some (PyFloat.fin 30, [TestMethod.PING])]).sum /
            ((successLats [some (PyFloat.fin 10, [TestMethod.PING]),
              some (PyFloat.fin 30, [TestMethod.PING])]).length : ℚ)) ∧
        (run_worker "8.8.8.8" "G" 4 [some (PyFloat.fin 10, [TestMethod.PING]),
            some (PyFloat.fin 30, [TestMethod.PING])]).status =
          "OK (" ++ specJoined (specMethods [some (PyFloat.fin 10, [TestMethod.PING]),
              some (PyFloat.fin 30, [TestMethod.PING])]) ++ ") - " ++
            toString (successLats [some (PyFloat.fin 10, [TestMethod.PING]),
              some (PyFloat.fin 30, [TestMethod.PING])]).length ++ "/" ++
            toString 4 :=
  ⟨by decide,
    (worker_final_record "8.8.8.8" "G" 4
        [some (PyFloat.fin 10, [TestMethod.PING]),
          some (PyFloat.fin 30, [TestMethod.PING])]).1 (by decide)⟩

/-!
## C6 — `averageLatencyMs == +∞ ⟺ attemptsSucceeded == 0`
-/

/-- C6 counterexample: one attempt whose median latency is exactly 0 counts
as a success for the worker (`latency != inf and methods` holds) but never
reaches `update_latency`'s `> 0` guard, so the stored record ends with a
finite `averageLatencyMs` (0/1) while `ping_count` — the record's count of
successful attempts — is 0, breaking the claimed equivalence. -/
theorem record_inf_iff_cex :
    (run_worker "s" "p" 1 [some (PyFloat.fin 0, [TestMethod.PING])]).avg_latency ≠
        PyFloat.inf ∧
      (run_worker "s" "p" 1 [some (PyFloat.fin 0, [TestMethod.PING])]).ping_count = 0 := by
  have hstep : run_attempts (initAcc "s" "p") 0 [some (PyFloat.fin 0, [TestMethod.PING])] =
      { result := (initAcc "s" "p").result.update_latency (PyFloat.fin 0)
          TestMethod.PING 0
        successful_tests := 1
        total_latency := 0 + (PyFloat.fin 0).toQ
        all_methods := setUpdate [] [TestMethod.PING] } := by
    simp [run_attempts, attempt_step, initAcc]
  have hup : (initAcc "s" "p").result.update_latency (PyFloat.fin 0)
      TestMethod.PING 0 = (initAcc "s" "p").result :=
    update_latency_nonpos _ _ _ _ le_rfl
  have hrw : run_worker "s" "p" 1 [some (PyFloat.fin 0, [TestMethod.PING])] =
      (finalize_worker 1 (run_attempts (initAcc "s" "p") 0
        [some (PyFloat.fin 0, [TestMethod.PING])])).1 := rfl
  rw [hrw, hstep, hup, finalize_pos _ _ (by simp)]
  exact ⟨by simp, rfl⟩

/-- C6 amended: the equivalence `averageLatencyMs = +∞ ↔ ping_count = 0`
holds at record creation and is preserved by every `update_latency` call;
after the worker's final write it holds provided every successful attempt
latency was strictly positive; and a run with no successful attempt always
leaves `averageLatencyMs = +∞` and `ping_count = 0` (the direction
`avg = +∞ → ping_count = 0` needs no positivity assumption). -/
theorem record_inf_iff :
    (∀ server provider : String,
        ({ server := server, provider := provider } : DNSResult).avg_latency =
            PyFloat.inf ∧
          ({ server := server, provider := provider } : DNSResult).ping_count = 0) ∧
      (∀ (r : DNSResult) (nl : PyFloat) (m : TestMethod) (now : ℕ),
        (r.avg_latency = PyFloat.inf ↔ r.ping_count = 0) →
        ((r.update_latency nl m now).avg_latency = PyFloat.inf ↔
          (r.update_latency nl m now).ping_count = 0)) ∧
      (∀ (server provider : String) (P : ℕ)
        (attempts : List (Option (PyFloat × List TestMethod))),
        (∀ q ∈ successLats attempts, 0 < q) →
        ((run_worker server provider P attempts).avg_latency = PyFloat.inf ↔
          (run_worker server provider P attempts).ping_count = 0)) ∧
      (∀ (server provider : String) (P : ℕ)
        (attempts : List (Option (PyFloat × List TestMethod))),
        successLats attempts = [] →
        (run_worker server provider P attempts).avg_latency = PyFloat.inf ∧
          (run_worker server provider P attempts).ping_count = 0) := by
  have hzero : ∀ (server provider : String) (P : ℕ)
      (attempts : List (Option (PyFloat × List TestMethod))),
      successLats attempts = [] →
      (run_worker server provider P attempts).avg_latency = PyFloat.inf ∧
        (run_worker server provider P attempts).ping_count = 0 := by
    intro server provider P attempts hsl
    have hrun := run_attempts_no_success attempts hsl (initAcc server provider) 0
    have hrw : run_worker server provider P attempts =
        (finalize_worker P (run_attempts (initAcc server provider) 0 attempts)).1 :=
      rfl
    rw [hrw, hrun, finalize_zero _ _ (by simp [initAcc])]
    exact ⟨rfl, rfl⟩
  refine ⟨fun server provider => ⟨rfl, rfl⟩, ?_, ?_, hzero⟩
  · intro r nl m now hiff
    match nl with
    | PyFloat.inf => rw [update_latency_inf]; exact hiff
    | PyFloat.fin q =>
      by_cases hq : 0 < q
      · rw [update_latency_pos r m now q hq]
        constructor
        · intro h
          exfalso
          revert h
          split <;> simp
        · intro h
          simp at h
      · rw [update_latency_nonpos r m now q (not_lt.mp hq)]
        exact hiff
  · intro server provider P attempts hpos
    by_cases hsl : successLats attempts = []
    · obtain ⟨h1, h2⟩ := hzero server provider P attempts hsl
      rw [h1, h2]
      simp
    · have hlen : 0 < (successLats attempts).length :=
        List.length_pos.mpr hsl
      obtain ⟨hst, _⟩ := run_attempts_counts attempts (initAcc server provider) 0
      have hst' : (run_attempts (initAcc server provider) 0 attempts).successful_tests =
          (successLats attempts).length := by
        simpa [initAcc] using hst
      have hpc := (run_attempts_record attempts (initAcc server provider) 0).2 hpos
      have hpc' : (run_attempts (initAcc server provider) 0 attempts).result.ping_count =
          (successLats attempts).length := by
        simpa [initAcc] using hpc
      have hrw : run_worker server provider P attempts =
          (finalize_worker P (run_attempts (initAcc server provider) 0 attempts)).1 :=
        rfl
      rw [hrw, finalize_pos _ _ (by omega)]
      constructor
      · intro h
        exfalso
        simp at h
      · intro h
        simp only [] at h
        rw [hpc'] at h
        omega

/-- Witness for C6 at a record, an update, and a one-success run. -/
theorem record_inf_iff_witness :
    ((({ server := "w" } : DNSResult).avg_latency = PyFloat.inf ↔
          ({ server := "w" } : DNSResult).ping_count = 0) ∧
        ((({ server := "w" } : DNSResult).update_latency (PyFloat.fin 10)
              TestMethod.PING 0).avg_latency = PyFloat.inf ↔
          (({ server := "w" } : DNSResult).update_latency (PyFloat.fin 10)
              TestMethod.PING 0).ping_count = 0)) ∧
      ((∀ q ∈ successLats [some (PyFloat.fin 10, [TestMethod.PING])], 0 < q) ∧
        ((run_worker "s" "p" 1 [some (PyFloat.fin 10, [TestMethod.PING])]).avg_latency =
            PyFloat.inf ↔
          (run_worker "s" "p" 1
              [some (PyFloat.fin 10, [TestMethod.PING])]).ping_count = 0)) ∧
      (successLats ([] : List (Option (PyFloat × List TestMethod))) = [] ∧
        (run_worker "s" "p" 1 ([] : List (Option (PyFloat × List TestMethod)))).avg_latency =
            PyFloat.inf ∧
          (run_worker "s" "p" 1
            ([] : List (Option (PyFloat × List TestMethod)))).ping_count = 0) :=
  ⟨⟨by simp, record_inf_iff.2.1 { server := "w" } (PyFloat.fin 10)
      TestMethod.PING 0 (by simp)⟩,
    ⟨by decide, record_inf_iff.2.2.1 "s" "p" 1
      [some (PyFloat.fin 10, [TestMethod.PING])] (by decide)⟩,
    ⟨rfl, record_inf_iff.2.2.2 "s" "p" 1 [] rfl⟩⟩

/-!
## C7 — which methods the record remembers
-/

theorem updateHeads_subset (attempts : List (Option (PyFloat × List TestMethod))) :
    (updateHeads attempts).toFinset ⊆ specMethods attempts := by
  induction attempts with
  | nil => simp [updateHeads, specMethods]
  | cons o rest ih =>
    match o with
    | none => exact ih
    | some (PyFloat.inf, methods) =>
      have h1 : updateHeads (some (PyFloat.inf, methods) :: rest) =
          updateHeads rest := by cases methods <;> rfl
      have h2 : specMethods (some (PyFloat.inf, methods) :: rest) =
          specMethods rest := by cases methods <;> rfl
      rw [h1, h2]; exact ih
    | some (PyFloat.fin q, []) => exact ih
    | some (PyFloat.fin q, m :: ms) =>
      have h2 : specMethods (some (PyFloat.fin q, m :: ms) :: rest) =
          (m :: ms).toFinset ∪ specMethods rest := rfl
      by_cases hq : 0 < q
      · have h1 : updateHeads (some (PyFloat.fin q, m :: ms) :: rest) =
            m :: updateHeads rest := by simp [updateHeads, hq]
        rw [h1, h2]
        intro a ha
        simp at ha
        rcases ha with rfl | ha
        · apply Finset.mem_union_left
          simp
        · exact Finset.mem_union_right _ (ih (List.mem_toFinset.mpr ha))
      · have h1 : updateHeads (some (PyFloat.fin q, m :: ms) :: rest) =
            updateHeads rest := by simp [updateHeads, hq]
        rw [h1, h2]
        exact ih.trans (Finset.subset_union_right)

/-- C7 counterexample: in a single attempt in which both the
resolution-query and the connection method succeed (latency 10), the stored
record's method set is `[DNS_QUERY]` — only `next(iter(methods))` was
recorded — even though the attempt's methods-succeeded set (and the status
line's set) contains `SOCKET_CONNECT` as well. -/
theorem worker_methods_cex :
    (run_worker "s" "p" 1 [some (PyFloat.fin 10,
        [TestMethod.DNS_QUERY, TestMethod.SOCKET_CONNECT])]).successful_methods =
        [TestMethod.DNS_QUERY] ∧
      TestMethod.SOCKET_CONNECT ∈ specMethods [some (PyFloat.fin 10,
        [TestMethod.DNS_QUERY, TestMethod.SOCKET_CONNECT])] ∧
      TestMethod.SOCKET_CONNECT ∉ (run_worker "s" "p" 1 [some (PyFloat.fin 10,
        [TestMethod.DNS_QUERY, TestMethod.SOCKET_CONNECT])]).successful_methods := by
  refine ⟨?_, by decide, ?_⟩
  · rw [run_worker, finalize_successful_methods]
    have hstep : run_attempts (initAcc "s" "p") 0 [some (PyFloat.fin 10,
        [TestMethod.DNS_QUERY, TestMethod.SOCKET_CONNECT])] =
        attempt_step (initAcc "s" "p") 0 (some (PyFloat.fin 10,
          [TestMethod.DNS_QUERY, TestMethod.SOCKET_CONNECT])) := rfl
    rw [hstep]
    simp [attempt_step, initAcc,
      update_latency_pos _ _ _ _ (by norm_num : (0 : ℚ) < 10), setAdd]
  · rw [run_worker, finalize_successful_methods]
    have hstep : run_attempts (initAcc "s" "p") 0 [some (PyFloat.fin 10,
        [TestMethod.DNS_QUERY, TestMethod.SOCKET_CONNECT])] =
        attempt_step (initAcc "s" "p") 0 (some (PyFloat.fin 10,
          [TestMethod.DNS_QUERY, TestMethod.SOCKET_CONNECT])) := rfl
    rw [hstep]
    simp [attempt_step, initAcc,
      update_latency_pos _ _ _ _ (by norm_num : (0 : ℚ) < 10), setAdd]

/-- C7 amended: the stored record's `successful_methods` is exactly the set
of per-attempt heads — one single method per successful strictly-positive
attempt, the model of `next(iter(methods))` — and is therefore only a
subset of the union of the attempts' methods-succeeded sets (the union is
used for the status text, not for this field). -/
theorem worker_methods_recorded (server provider : String) (P : ℕ)
    (attempts : List (Option (PyFloat × List TestMethod))) :
    ((run_worker server provider P attempts).successful_methods).toFinset =
        (updateHeads attempts).toFinset ∧
      ((run_worker server provider P attempts).successful_methods).Nodup ∧
      ((run_worker server provider P attempts).successful_methods).toFinset ⊆
        specMethods attempts := by
  have hrw : (run_worker server provider P attempts).successful_methods =
      (run_attempts (initAcc server provider) 0 attempts).result.successful_methods := by
    rw [run_worker, finalize_successful_methods]
  have hrec := (run_attempts_record attempts (initAcc server provider) 0).1
  have hfold : (run_attempts (initAcc server provider) 0 attempts).result.successful_methods =
      setUpdate [] (updateHeads attempts) := by
    rw [hrec]; rfl
  refine ⟨?_, ?_, ?_⟩
  · rw [hrw, hfold, setUpdate_toFinset]
    simp
  · rw [hrw, hfold]
    exact setUpdate_nodup _ _ (List.nodup_nil)
  · rw [hrw, hfold, setUpdate_toFinset]
    simp only [List.toFinset_nil, Finset.empty_union]
    exact updateHeads_subset attempts

/-!
## C9 — live display ordering
-/

instance : IsTotal DNSResult (fun a b => displayKey a ≤ displayKey b) :=
  ⟨fun a b => le_total _ _⟩

instance : IsTrans DNSResult (fun a b => displayKey a ≤ displayKey b) :=
  ⟨fun _ _ _ hab hbc => le_trans hab hbc⟩

/-- A record with no successful attempt, in the map before a slow one. -/
def cexInfRec : DNSResult := { server := "inf-first" }

/-- A record whose finite average exceeds the 999999 sentinel (reachable
because the echo probe has no sanity ceiling, cf. the C2 theorems). -/
def cexFinRec : DNSResult :=
  { server := "fin-second", avg_latency := PyFloat.fin 1000000 }

/-- C9 counterexample: sorting a snapshot holding a failed record
(`avg = inf`, key 999999) and a finite record with average 1000000 puts the
infinite record *before* the finite one, because the key clamps infinities
to 999999 rather than past every finite value. -/
theorem display_sorted_cex :
    displaySorted [cexInfRec, cexFinRec] = [cexInfRec, cexFinRec] ∧
      cexInfRec.avg_latency = PyFloat.inf ∧
      cexFinRec.avg_latency = PyFloat.fin 1000000 ∧
      cexFinRec.avg_latency ≠ PyFloat.inf := by
  refine ⟨by decide, rfl, rfl, by decide⟩

/-- C9 amended: the live display sorts any snapshot ascending by the key
`avg if finite else 999999`; consequently an infinite-average record
precedes a finite-average record only when that finite average is at least
999999 — records with `avg = inf` sort after every finite record whose
average is below the 999999 sentinel, but not necessarily after all finite
records. -/
theorem display_sorted_spec (rs : List DNSResult) :
    List.Perm (displaySorted rs) rs ∧
      (displaySorted rs).Pairwise (fun a b => displayKey a ≤ displayKey b) ∧
      (displaySorted rs).Pairwise (fun a b =>
        a.avg_latency = PyFloat.inf →
          b.avg_latency = PyFloat.inf ∨
            ∃ q, b.avg_latency = PyFloat.fin q ∧ 999999 ≤ q) := by
  have hperm : List.Perm (displaySorted rs) rs := List.perm_insertionSort _ rs
  have hsorted : (displaySorted rs).Pairwise
      (fun a b => displayKey a ≤ displayKey b) :=
    List.sorted_insertionSort _ rs
  refine ⟨hperm, hsorted, ?_⟩
  apply hsorted.imp
  intro a b hle ha
  cases hb : b.avg_latency with
  | inf => exact Or.inl rfl
  | fin q =>
    refine Or.inr ⟨q, rfl, ?_⟩
    have hka : displayKey a = 999999 := by
      rw [displayKey, ha]
    have hkb : displayKey b = q := by
      rw [displayKey, hb]
    rw [hka, hkb] at hle
    exact hle

/-!
## C5 — counters versus the results map
-/

theorem sum_comp_update {n : ℕ} {α : Type} [DecidableEq (Fin n)]
    (f : Fin n → α) (g : α → ℕ) (i : Fin n) (v : α) :
    (∑ j, g (Function.update f i v j)) + g (f i) = (∑ j, g (f j)) + g v := by
  have hcomp : (fun j => g (Function.update f i v j)) =
      Function.update (fun j => g (f j)) i (g v) := by
    funext j
    by_cases hj : j = i
    · subst hj; simp
    · simp [Function.update_noteq hj]
  rw [hcomp, Finset.sum_update_of_mem (Finset.mem_univ i)]
  rw [Finset.sum_eq_sum_diff_singleton_add (Finset.mem_univ i) fun j => g (f j)]
  omega

theorem storedInd_none : storedInd none = 0 := rfl

theorem storedInd_some (r : DNSResult) : storedInd (some r) = 1 := rfl

theorem step_inv {n : ℕ} {outcome : Fin n → Bool} {record : Fin n → DNSResult}
    {s s' : SysState n} (hstep : SysStep outcome record s s')
    (h1 : s.scanned = storedCount s)
    (h2 : s.successful + s.failed = storedCount s)
    (h3 : ∀ i, (s.results i).isSome ↔ s.phase i = WPhase.done) :
    s'.scanned = storedCount s' ∧
      s'.successful + s'.failed = storedCount s' ∧
      ∀ i, (s'.results i).isSome ↔ s'.phase i = WPhase.done := by
  have hsc : storedCount s = ∑ j, storedInd (s.results j) := rfl
  cases hstep with
  | finish i hp =>
    have hni : s.results i = none := by
      cases hri : s.results i with
      | none => rfl
      | some r =>
        exfalso
        have := (h3 i).mp (by rw [hri]; rfl)
        rw [hp] at this
        cases this
    have hsum := sum_comp_update s.results storedInd i (some (record i))
    rw [hni, storedInd_none, storedInd_some] at hsum
    refine ⟨?_, ?_, ?_⟩
    · show s.scanned + 1 =
        ∑ j, storedInd (Function.update s.results i (some (record i)) j)
      rw [hsc] at h1
      omega
    · show (if outcome i then s.successful + 1 else s.successful) +
          (if outcome i then s.failed else s.failed + 1) =
        ∑ j, storedInd (Function.update s.results i (some (record i)) j)
      rw [hsc] at h2
      by_cases ho : outcome i = true
      · rw [if_pos ho, if_pos ho]
        omega
      · rw [if_neg ho, if_neg ho]
        omega
    · intro j
      show (Function.update s.results i (some (record i)) j).isSome ↔
        Function.update s.phase i WPhase.done j = WPhase.done
      by_cases hj : j = i
      · subst hj
        rw [Function.update_same, Function.update_same]
        simp
      · rw [Function.update_noteq hj, Function.update_noteq hj]
        exact h3 j

theorem reach_inv {n : ℕ} (outcome : Fin n → Bool) (record : Fin n → DNSResult)
    (s : SysState n) (h : Reach outcome record s) :
    s.scanned = storedCount s ∧
      s.successful + s.failed = storedCount s ∧
      ∀ i, (s.results i).isSome ↔ s.phase i = WPhase.done := by
  induction h with
  | refl =>
    refine ⟨?_, ?_, ?_⟩
    · simp [initState, storedCount, storedInd]
    · simp [initState, storedCount, storedInd]
    · intro i; simp [initState]
  | tail hr hstep ih =>
    obtain ⟨h1, h2, h3⟩ := ih
    exact step_inv hstep h1 h2 h3

/-- C5: a finished worker's shared-state mutations — the
succeeded-or-failed counter bump (scanner.py:932/935), the results-map
write (939) and the scanned bump (940) — execute in one uninterrupted
slice (the lock is never contended and its acquisition never suspends, see
the model's note), so in every reachable interleaving a reader taking the
lock observes `countersSucceeded + countersFailed` and `countersScanned`
both equal to the number of stored records: no counter is ever observed
incremented before the matching `ServerRecord` exists. -/
theorem counters_consistency {n : ℕ} (outcome : Fin n → Bool)
    (record : Fin n → DNSResult) (s : SysState n)
    (h : Reach outcome record s) :
    s.successful + s.failed = storedCount s ∧ s.scanned = storedCount s := by
  obtain ⟨h1, h2, _⟩ := reach_inv outcome record s h
  exact ⟨h2, h1⟩

/-- Fixed data for the C5 witness: a single successful worker. -/
def oneOutcome : Fin 1 → Bool := fun _ => true

/-- Its stored record (content irrelevant to the counters). -/
def oneRecord : Fin 1 → DNSResult := fun _ => { server := "0.0.0.0" }

/-- The state after that worker's single atomic slice. -/
def oneDoneState : SysState 1 :=
  { successful := 1
    failed := 0
    scanned := 1
    results := Function.update (initState 1).results ⟨0, Nat.zero_lt_one⟩
      (some (oneRecord ⟨0, Nat.zero_lt_one⟩))
    phase := Function.update (initState 1).phase ⟨0, Nat.zero_lt_one⟩
      WPhase.done }

/-- Witness for C5 at the state reached by one worker step: the counters
and the stored-record count agree (all equal 1). -/
theorem counters_consistency_witness :
    Reach oneOutcome oneRecord oneDoneState ∧
      storedCount oneDoneState = 1 ∧
      oneDoneState.successful + oneDoneState.failed = storedCount oneDoneState ∧
      oneDoneState.scanned = storedCount oneDoneState :=
  ⟨Relation.ReflTransGen.single
      (SysStep.finish (initState 1) ⟨0, Nat.zero_lt_one⟩ rfl),
    by decide,
    (counters_consistency oneOutcome oneRecord oneDoneState
        (Relation.ReflTransGen.single
          (SysStep.finish (initState 1) ⟨0, Nat.zero_lt_one⟩ rfl))).1,
    (counters_consistency oneOutcome oneRecord oneDoneState
        (Relation.ReflTransGen.single
          (SysStep.finish (initState 1) ⟨0, Nat.zero_lt_one⟩ rfl))).2⟩

/-!
## C8 — IP validation

Correctness of the backtracking matcher with respect to the declarative
language, then a closed characterisation of `IP_REGEX`.
-/

theorem matchP_iff (p : Pat) : ∀ (s : List Char) (k : List Char → Bool),
    matchP p s k = true ↔ ∃ u v, s = u ++ v ∧ Accepts p u ∧ k v = true := by
  induction p with
  | cls f =>
    intro s k
    cases s with
    | nil =>
      simp only [matchP]
      constructor
      · intro h; cases h
      · rintro ⟨u, v, hsv, ⟨c, rfl, _⟩, _⟩
        simp at hsv
    | cons c rest =>
      simp only [matchP, Bool.and_eq_true]
      constructor
      · rintro ⟨hf, hk⟩
        exact ⟨[c], rest, rfl, ⟨c, rfl, hf⟩, hk⟩
      · rintro ⟨u, v, hsv, ⟨c', rfl, hf⟩, hk⟩
        rw [List.singleton_append] at hsv
        injection hsv with h1 h2
        subst h1
        subst h2
        exact ⟨hf, hk⟩
  | seq p q ihp ihq =>
    intro s k
    rw [show matchP (.seq p q) s k = matchP p s (fun r => matchP q r k) from rfl,
      ihp]
    constructor
    · rintro ⟨u, v, rfl, hu, hv⟩
      rw [ihq] at hv
      obtain ⟨u', v', rfl, hu', hk⟩ := hv
      exact ⟨u ++ u', v', by rw [List.append_assoc], ⟨u, u', rfl, hu, hu'⟩, hk⟩
    · rintro ⟨w, v', hs, ⟨u, u', rfl, hu, hu'⟩, hk⟩
      refine ⟨u, u' ++ v', by rw [hs, List.append_assoc], hu, ?_⟩
      rw [ihq]
      exact ⟨u', v', rfl, hu', hk⟩
  | alt p q ihp ihq =>
    intro s k
    rw [show matchP (.alt p q) s k = (matchP p s k || matchP q s k) from rfl,
      Bool.or_eq_true, ihp, ihq]
    constructor
    · rintro (⟨u, v, rfl, hu, hk⟩ | ⟨u, v, rfl, hu, hk⟩)
      · exact ⟨u, v, rfl, Or.inl hu, hk⟩
      · exact ⟨u, v, rfl, Or.inr hu, hk⟩
    · rintro ⟨u, v, rfl, hu | hu, hk⟩
      · exact Or.inl ⟨u, v, rfl, hu, hk⟩
      · exact Or.inr ⟨u, v, rfl, hu, hk⟩
  | opt p ihp =>
    intro s k
    rw [show matchP (.opt p) s k = (matchP p s k || k s) from rfl,
      Bool.or_eq_true, ihp]
    constructor
    · rintro (⟨u, v, rfl, hu, hk⟩ | hk)
      · exact ⟨u, v, rfl, Or.inr hu, hk⟩
      · exact ⟨[], s, rfl, Or.inl rfl, hk⟩
    · rintro ⟨u, v, rfl, rfl | hu, hk⟩
      · exact Or.inr hk
      · exact Or.inl ⟨u, v, rfl, hu, hk⟩

theorem accepts_lit_iff (c : Char) (l : List Char) :
    Accepts (litP c) l ↔ ∃ x, l = [x] ∧ x.toNat = c.toNat := by
  simp [litP, Accepts]

theorem accepts_range_iff (a b : Char) (l : List Char) :
    Accepts (rangeP a b) l ↔
      ∃ x, l = [x] ∧ a.toNat ≤ x.toNat ∧ x.toNat ≤ b.toNat := by
  simp [rangeP, Accepts]

theorem octetStr_one (a : Char) :
    OctetStr [a] = true ↔ 48 ≤ a.toNat ∧ a.toNat ≤ 57 := by
  simp [OctetStr, isDig, groupVal]
  omega

theorem octetStr_two (a b : Char) :
    OctetStr [a, b] = true ↔
      (48 ≤ a.toNat ∧ a.toNat ≤ 57) ∧ 48 ≤ b.toNat ∧ b.toNat ≤ 57 := by
  simp [OctetStr, isDig, groupVal]
  omega

theorem octetStr_three (a b c : Char) :
    OctetStr [a, b, c] = true ↔
      (48 ≤ a.toNat ∧ a.toNat ≤ 57) ∧ (48 ≤ b.toNat ∧ b.toNat ≤ 57) ∧
        (48 ≤ c.toNat ∧ c.toNat ≤ 57) ∧
        ((a.toNat - 48) * 10 + (b.toNat - 48)) * 10 + (c.toNat - 48) ≤ 255 := by
  simp [OctetStr, isDig, groupVal]
  omega

theorem accepts_octet_iff (u : List Char) :
    Accepts octetPat u ↔ OctetStr u = true := by
  have h0 : ('0' : Char).toNat = 48 := rfl
  have h1 : ('1' : Char).toNat = 49 := rfl
  have h2 : ('2' : Char).toNat = 50 := rfl
  have h4 : ('4' : Char).toNat = 52 := rfl
  have h5 : ('5' : Char).toNat = 53 := rfl
  have h9 : ('9' : Char).toNat = 57 := rfl
  constructor
  · intro h
    rcases h with hA | hB | hC
    · obtain ⟨u1, v1, rfl, hl2, u2, v2, rfl, hl5, hr⟩ := hA
      obtain ⟨a, rfl, ha⟩ := (accepts_lit_iff _ _).mp hl2
      obtain ⟨b, rfl, hb⟩ := (accepts_lit_iff _ _).mp hl5
      obtain ⟨c, rfl, hc1, hc2⟩ := (accepts_range_iff _ _ _).mp hr
      rw [h2] at ha
      rw [h5] at hb
      rw [h0] at hc1
      rw [h5] at hc2
      show OctetStr [a, b, c] = true
      rw [octetStr_three]
      omega
    · obtain ⟨u1, v1, rfl, hl2, u2, v2, rfl, hr04, hr09⟩ := hB
      obtain ⟨a, rfl, ha⟩ := (accepts_lit_iff _ _).mp hl2
      obtain ⟨b, rfl, hb1, hb2⟩ := (accepts_range_iff _ _ _).mp hr04
      obtain ⟨c, rfl, hc1, hc2⟩ := (accepts_range_iff _ _ _).mp hr09
      rw [h2] at ha
      rw [h0] at hb1
      rw [h4] at hb2
      rw [h0] at hc1
      rw [h9] at hc2
      show OctetStr [a, b, c] = true
      rw [octetStr_three]
      omega
    · obtain ⟨u1, v1, rfl, hopt1, u2, v2, rfl, hdig, hopt2⟩ := hC
      obtain ⟨b, rfl, hb1, hb2⟩ := (accepts_range_iff _ _ _).mp hdig
      rw [h0] at hb1
      rw [h9] at hb2
      rcases hopt1 with rfl | hfirst
      · rcases hopt2 with rfl | hlast
        · show OctetStr [b] = true
          rw [octetStr_one]
          omega
        · obtain ⟨c, rfl, hc1, hc2⟩ := (accepts_range_iff _ _ _).mp hlast
          rw [h0] at hc1
          rw [h9] at hc2
          show OctetStr [b, c] = true
          rw [octetStr_two]
          omega
      · obtain ⟨a, rfl, ha1, ha2⟩ := (accepts_range_iff _ _ _).mp hfirst
        rw [h0] at ha1
        rw [h1] at ha2
        rcases hopt2 with rfl | hlast
        · show OctetStr [a, b] = true
          rw [octetStr_two]
          omega
        · obtain ⟨c, rfl, hc1, hc2⟩ := (accepts_range_iff _ _ _).mp hlast
          rw [h0] at hc1
          rw [h9] at hc2
          show OctetStr [a, b, c] = true
          rw [octetStr_three]
          omega
  · intro h
    match u with
    | [] => simp [OctetStr] at h
    | [a] =>
      obtain ⟨ha1, ha2⟩ := (octetStr_one a).mp h
      refine Or.inr (Or.inr ⟨[], [a], rfl, Or.inl rfl, [a], [], rfl, ?_, Or.inl rfl⟩)
      exact (accepts_range_iff _ _ _).mpr ⟨a, rfl, by omega, by omega⟩
    | [a, b] =>
      obtain ⟨⟨ha1, ha2⟩, hb1, hb2⟩ := (octetStr_two a b).mp h
      refine Or.inr (Or.inr ⟨[], [a, b], rfl, Or.inl rfl, [a], [b], rfl, ?_,
        Or.inr ?_⟩)
      · exact (accepts_range_iff _ _ _).mpr ⟨a, rfl, by omega, by omega⟩
      · exact (accepts_range_iff _ _ _).mpr ⟨b, rfl, by omega, by omega⟩
    | [a, b, c] =>
      obtain ⟨⟨ha1, ha2⟩, ⟨hb1, hb2⟩, ⟨hc1, hc2⟩, hval⟩ := (octetStr_three a b c).mp h
      by_cases ha49 : a.toNat ≤ 49
      · refine Or.inr (Or.inr ⟨[a], [b, c], rfl, Or.inr ?_, [b], [c], rfl, ?_,
          Or.inr ?_⟩)
        · exact (accepts_range_iff _ _ _).mpr ⟨a, rfl, by omega, by omega⟩
        · exact (accepts_range_iff _ _ _).mpr ⟨b, rfl, by omega, by omega⟩
        · exact (accepts_range_iff _ _ _).mpr ⟨c, rfl, by omega, by omega⟩
      · have ha50 : a.toNat = 50 := by omega
        by_cases hb52 : b.toNat ≤ 52
        · refine Or.inr (Or.inl ⟨[a], [b, c], rfl, ?_, [b], [c], rfl, ?_, ?_⟩)
          · exact (accepts_lit_iff _ _).mpr ⟨a, rfl, by omega⟩
          · exact (accepts_range_iff _ _ _).mpr ⟨b, rfl, by omega, by omega⟩
          · exact (accepts_range_iff _ _ _).mpr ⟨c, rfl, by omega, by omega⟩
        · have hb53 : b.toNat = 53 := by omega
          have hc53 : c.toNat ≤ 53 := by omega
          refine Or.inl ⟨[a], [b, c], rfl, ?_, [b], [c], rfl, ?_, ?_⟩
          · exact (accepts_lit_iff _ _).mpr ⟨a, rfl, by omega⟩
          · exact (accepts_lit_iff _ _).mpr ⟨b, rfl, by omega⟩
          · exact (accepts_range_iff _ _ _).mpr ⟨c, rfl, by omega, by omega⟩
    | a :: b :: c :: d :: rest =>
      simp [OctetStr] at h

theorem accepts_ip_iff (l : List Char) : Accepts ipPat l ↔ DottedQuad l := by
  constructor
  · rintro ⟨u1, v1, rfl, ⟨g1, d1, rfl, hg1, hd1⟩, u2, v2, rfl,
      ⟨g2, d2, rfl, hg2, hd2⟩, u3, v3, rfl, ⟨g3, d3, rfl, hg3, hd3⟩, hg4⟩
    obtain ⟨x1, rfl, hx1⟩ := (accepts_lit_iff _ _).mp hd1
    obtain ⟨x2, rfl, hx2⟩ := (accepts_lit_iff _ _).mp hd2
    obtain ⟨x3, rfl, hx3⟩ := (accepts_lit_iff _ _).mp hd3
    have e1 : x1 = '.' := char_toNat_inj hx1
    have e2 : x2 = '.' := char_toNat_inj hx2
    have e3 : x3 = '.' := char_toNat_inj hx3
    subst e1
    subst e2
    subst e3
    refine ⟨g1, g2, g3, v3, ?_, (accepts_octet_iff _).mp hg1,
      (accepts_octet_iff _).mp hg2, (accepts_octet_iff _).mp hg3,
      (accepts_octet_iff _).mp hg4⟩
    simp [List.append_assoc]
  · rintro ⟨g1, g2, g3, g4, rfl, hg1, hg2, hg3, hg4⟩
    refine ⟨g1 ++ ['.'], g2 ++ '.' :: (g3 ++ '.' :: g4), by simp, ?_, ?_⟩
    · exact ⟨g1, ['.'], rfl, (accepts_octet_iff _).mpr hg1,
        (accepts_lit_iff _ _).mpr ⟨'.', rfl, rfl⟩⟩
    · refine ⟨g2 ++ ['.'], g3 ++ '.' :: g4, by simp, ?_, ?_⟩
      · exact ⟨g2, ['.'], rfl, (accepts_octet_iff _).mpr hg2,
          (accepts_lit_iff _ _).mpr ⟨'.', rfl, rfl⟩⟩
      · refine ⟨g3 ++ ['.'], g4, by simp, ?_, (accepts_octet_iff _).mpr hg4⟩
        exact ⟨g3, ['.'], rfl, (accepts_octet_iff _).mpr hg3,
          (accepts_lit_iff _ _).mpr ⟨'.', rfl, rfl⟩⟩

/-- Closed characterisation of `is_valid_ip` under Python's `re.match` and
`$` semantics: a string is accepted iff, after peeling at most one
string-final newline, it is a dotted quad of four 1–3-digit groups each of
value ≤ 255. -/
theorem is_valid_ip_iff (s : String) :
    is_valid_ip s = true ↔
      (DottedQuad s.data ∨ ∃ l, s.data = l ++ ['\n'] ∧ DottedQuad l) := by
  rw [is_valid_ip, matchP_iff ipPat]
  constructor
  · rintro ⟨u, v, hsv, hacc, hk⟩
    have hdq : DottedQuad u := (accepts_ip_iff u).mp hacc
    have hv : v = [] ∨ v = ['\n'] := by
      rcases hor : (v.isEmpty : Bool) with _ | _
      · right
        have := hk
        rw [hor] at this
        simp at this
        exact this
      · left
        exact List.isEmpty_iff.mp hor
    rcases hv with rfl | rfl
    · left
      rw [hsv, List.append_nil]
      exact hdq
    · right
      exact ⟨u, hsv, hdq⟩
  · rintro (hdq | ⟨l, hsl, hdq⟩)
    · exact ⟨s.data, [], (List.append_nil _).symm,
        (accepts_ip_iff _).mpr hdq, rfl⟩
    · exact ⟨l, ['\n'], hsl, (accepts_ip_iff _).mpr hdq, rfl⟩

/-- C8 counterexample: `"1.2.3.4\n"` carries an extra surrounding character
(a trailing newline) yet `is_valid_ip` accepts it, because Python's `$`
also matches just before a newline that ends the string. -/
theorem ip_validation_cex :
    is_valid_ip "1.2.3.4\n" = true ∧
      ("1.2.3.4\n" : String).data = ("1.2.3.4" : String).data ++ ['\n'] :=
  ⟨by decide, by decide⟩

/-- C8 amended: `is_valid_ip` accepts exactly the full-line dotted quads —
four dot-separated groups of one to three digits with value at most 255 —
*and* any such quad followed by one string-final newline (Python's `$`
semantics); every other string, including the claim's examples, is
rejected. -/
theorem ip_validation_characterization :
    (∀ s : String, is_valid_ip s = true ↔
        (DottedQuad s.data ∨ ∃ l, s.data = l ++ ['\n'] ∧ DottedQuad l)) ∧
      is_valid_ip "255.255.255.255" = true ∧
      is_valid_ip "256.1.1.1" = false ∧
      is_valid_ip "1.2.3" = false :=
  ⟨is_valid_ip_iff, by decide, by decide, by decide⟩

end DnsPing
